import Mathlib

/-!
Verification of the grouped streaming aggregation core of the `| stats`
pipe operator (VictoriaLogs `pipeStats`), embedded shallowly from
`lib/logstorage` sources (`pipeStats` processor, `statsRowAny` aggregator,
and the stats clause surface syntax).

Conventions of the embedding:
* Go byte strings are embedded as `List Nat` (one `Nat` per byte).
* Go `map[string]*T` is embedded as an association list in insertion
  order (iteration order of Go maps is unspecified, and no claim depends
  on it).
* Go mutation is embedded as explicit state passing.
* Machine integers (`int`, `int64`) are embedded as `Int`; no overflow is
  reachable in the claims below.
* Functions from this repository that are not part of the extracted
  sources (the `encoding`, `bytesutil` helpers, block-result accessors,
  and the numeric literal sub-parsers) are modelled from the natural
  language specification; each such definition carries a doc comment
  starting with `Modelled from the spec:`.
-/

namespace VLStats

/-- Byte strings are lists of byte values. -/
abbrev Bytes := List Nat

/-! ## Varint bytes codec (`encoding.MarshalBytes` / `encoding.UnmarshalBytes`) -/

/-- Modelled from the spec: `marshalBytes(b)` writes a varint-length prefix
followed by the raw bytes.  This is the little-endian base-128 varint of Go's
`binary.PutUvarint`: low 7-bit group first, continuation bit `0x80` on every
byte except the last.  Fuel-based recursion (`fuel = n` suffices) keeps the
definition kernel-reducible. -/
def putUvarintAux : Nat → Nat → List Nat
  | 0, n => [n % 128]
  | fuel + 1, n => if n < 128 then [n] else (n % 128 + 128) :: putUvarintAux fuel (n / 128)

/-- Modelled from the spec: varint encoding of a natural number. -/
def putUvarint (n : Nat) : List Nat := putUvarintAux n n

/-- Modelled from the spec: varint decoding; returns the decoded value and the
number of bytes consumed. -/
def readUvarint : List Nat → Option (Nat × Nat)
  | [] => none
  | b :: rest =>
    if b < 128 then some (b, 1)
    else
      match readUvarint rest with
      | some (v, k) => some (v * 128 + (b - 128), k + 1)
      | none => none

/-- Modelled from the spec: `encoding.MarshalBytes(dst, b)` appends the
varint-length prefix of `b` followed by `b` itself to `dst`. -/
def marshalBytes (dst b : Bytes) : Bytes := dst ++ (putUvarint b.length ++ b)

/-- Modelled from the spec: `encoding.UnmarshalBytes(src)` reads a
varint-length prefix and then that many raw bytes; it returns the decoded
bytes together with the total number of bytes consumed, or `none` on a
malformed prefix (Go signals this with `nSize <= 0`). -/
def unmarshalBytes (src : Bytes) : Option (Bytes × Nat) :=
  match readUvarint src with
  | none => none
  | some (len, k) =>
    if k + len ≤ src.length then some (((src.drop k).take len), k + len) else none

/-- The group-key encoder: the key for a tuple of bucketed by-field values is
the concatenation of their `marshalBytes` encodings, exactly as built in
`pipeStatsProcessorShard.writeBlock` (`keyBuf = MarshalBytes(keyBuf, v)` over
the by-fields in order, starting from the empty buffer). -/
def encodeKey (vs : List Bytes) : Bytes := vs.foldl marshalBytes []

/-- One length-prefixed fragment of an encoded key. -/
def encPiece (v : Bytes) : Bytes := putUvarint v.length ++ v

/-- The key-decoding loop of `pipeStatsProcessor.flush`: repeatedly
`UnmarshalBytes` until the buffer is exhausted; a malformed fragment is a
`logger.Panicf` in Go, embedded as `none`.  Fuel is the buffer length, which
suffices since every fragment consumes at least one byte. -/
def decodeLoopAux : Nat → Bytes → List Bytes → Option (List Bytes)
  | _, [], acc => some acc.reverse
  | 0, _ :: _, _ => none
  | fuel + 1, b :: rest, acc =>
    match unmarshalBytes (b :: rest) with
    | none => none
    | some (v, n) => decodeLoopAux fuel ((b :: rest).drop n) (v :: acc)

/-- Decode a whole group key into its list of by-field values. -/
def decodeKey (buf : Bytes) : Option (List Bytes) := decodeLoopAux buf.length buf []

/-! ## Block model (`blockResult`, §6.2 collaborator contract) -/

/-- A column of a block: a name and a vector of values; a constant column
repeats `valuesEncoded[0]` for every row (§6.2). -/
structure blockResultColumn where
  name : String
  isConst : Bool
  valuesEncoded : List Bytes
deriving DecidableEq, Repr

/-- An input block: an immutable batch of rows laid out as columns.  The
`pipeStats` source measures the row count as `len(br.timestamps)`, while
`statsRowAny` reads `br.rowsLen`; both denote the number of rows, so
`rowsLen` is derived from `timestamps`. -/
structure blockResult where
  timestamps : List Int
  columns : List blockResultColumn
deriving DecidableEq, Repr

/-- Row count of a block (`br.rowsLen` in `stats_row_any.go`,
`len(br.timestamps)` in the `pipeStats` source). -/
def blockResult.rowsLen (br : blockResult) : Nat := br.timestamps.length

/-- Modelled from the spec: `getColumnByName` (§6.2) returns the named
column; a column absent from the block behaves as a constant column holding
the empty value. -/
def blockResult.getColumnByName (br : blockResult) (name : String) : blockResultColumn :=
  (br.columns.find? (fun c => c.name = name)).getD ⟨name, true, [[]]⟩

/-- Modelled from the spec: `getColumns` (§6.2) returns all columns of the
block. -/
def blockResult.getColumns (br : blockResult) : List blockResultColumn := br.columns

/-- Modelled from the spec: `c.getValueAtRow(br, rowIdx)` (§6.2) returns the
single constant value for constant columns and the row's value otherwise. -/
def blockResultColumn.getValueAtRow (c : blockResultColumn) (_br : blockResult) (rowIdx : Nat) :
    Bytes :=
  if c.isConst then c.valuesEncoded.headD [] else c.valuesEncoded.getD rowIdx []

/-- By-field descriptor (`byStatsField`): field name plus optional bucket
configuration.  The `float64` bucket parameters are embedded as rationals;
every value produced by the bucket-size grammar (integers, ns-based
durations, byte sizes, powers of two, short decimal fractions) is exactly
representable. -/
structure byStatsField where
  name : String
  bucketSizeStr : String := ""
  bucketSize : ℚ := 0
  bucketOffsetStr : String := ""
  bucketOffset : ℚ := 0
deriving DecidableEq, Repr

/-- Modelled from the spec: a bucketing function maps a raw value and a
by-field's bucket configuration to the bucket representative
(`br.getBucketedValue`, §6.2).  It is an external collaborator of the core,
so the shard model is parametrised over it. -/
def bucketFn : Type := Bytes → byStatsField → Bytes

/-- Modelled from the spec: `c.getValuesBucketed(br, bf)` (§6.2) returns the
bucketed representative of the column value for every row of the block. -/
def blockResultColumn.getValuesBucketed (c : blockResultColumn) (br : blockResult)
    (bucket : bucketFn) (bf : byStatsField) : List Bytes :=
  (List.range br.rowsLen).map (fun i => bucket (c.getValueAtRow br i) bf)

/-- Modelled from the spec: `br.getBucketedValue(v, bf)` maps one raw value
to its bucket representative. -/
def blockResult.getBucketedValue (_br : blockResult) (bucket : bucketFn) (v : Bytes)
    (bf : byStatsField) : Bytes := bucket v bf

/-- The `areConstValues` helper of the source: a non-empty list all of whose
entries equal the first one. -/
def areConstValues (values : List Bytes) : Bool :=
  match values with
  | [] => false
  | v :: rest => rest.all (fun w => w = v)

/-! ## Aggregator states

The executable fragment embeds the aggregator whose implementation is part
of the extracted sources (`row_any`, from `stats_row_any.go`) plus `count`,
the aggregator named by the spec's zero-input edge case; `count` is
modelled from the spec (§4.4).  State byte sizes returned by
`newStatsProcessor` are implementation constants absent from the sources
and are modelled as `0`; no claim depends on them. -/

/-- A captured log field: name and value (`Field` of the repository). -/
structure Field where
  name : String
  value : Bytes
deriving DecidableEq, Repr

/-- State of the `row_any` aggregator (`statsRowAnyProcessor`): the
configured fields to fetch (`sa.fields`, empty means all columns), the
`captured` flag and the captured row. -/
structure statsRowAnyProcessor where
  saFields : List String
  captured : Bool
  fields : List Field
deriving DecidableEq, Repr

/-- State update of `row_any` (`statsRowAnyProcessor.updateState`): capture
the row's value for every configured field (or every column when none is
configured) and report the bytes retained. -/
def statsRowAnyProcessor.updateState (sap : statsRowAnyProcessor) (br : blockResult)
    (rowIdx : Nat) : statsRowAnyProcessor × Int :=
  let newFields :=
    if sap.saFields = [] then
      br.getColumns.map (fun c => Field.mk c.name (c.getValueAtRow br rowIdx))
    else
      sap.saFields.map (fun f =>
        let c := br.getColumnByName f
        Field.mk c.name (c.getValueAtRow br rowIdx))
  let delta : Int := Int.ofNat (newFields.map (fun f => f.name.length + f.value.length)).sum
  ({ sap with fields := sap.fields ++ newFields }, delta)

/-- The `updateStatsForAllRows` method of `statsRowAnyProcessor`: skip empty
blocks, capture the first row once. -/
def statsRowAnyProcessor.updateStatsForAllRows (sap : statsRowAnyProcessor)
    (br : blockResult) : statsRowAnyProcessor × Int :=
  if br.rowsLen = 0 then (sap, 0)
  else if sap.captured then (sap, 0)
  else ({ sap with captured := true }.updateState br 0)

/-- The `updateStatsForRow` method of `statsRowAnyProcessor`. -/
def statsRowAnyProcessor.updateStatsForRow (sap : statsRowAnyProcessor)
    (br : blockResult) (rowIdx : Nat) : statsRowAnyProcessor × Int :=
  if sap.captured then (sap, 0)
  else ({ sap with captured := true }.updateState br rowIdx)

/-- The `mergeState` method of `statsRowAnyProcessor`: if the receiver has
not captured a row yet, take the other instance's flag and fields. -/
def statsRowAnyProcessor.mergeState (sap src : statsRowAnyProcessor) :
    statsRowAnyProcessor :=
  if sap.captured then sap
  else { sap with captured := src.captured, fields := src.fields }

/-- Modelled from the spec: `MarshalFieldsToJSON` renders the captured row
as a `\x7bfield: value\x7d` JSON object (§4.4); string escaping is not
modelled (byte `34` is the double quote, `58` the colon, `44` the comma,
`123`/`125` the braces). -/
def marshalFieldsToJSON (fields : List Field) : Bytes :=
  let quote : Bytes → Bytes := fun s => 34 :: s ++ [34]
  let strBytes : String → Bytes := fun s => s.toList.map Char.toNat
  let fieldPiece : Field → Bytes := fun f => quote (strBytes f.name) ++ 58 :: quote f.value
  123 :: ((fields.map fieldPiece).intersperse [44]).flatten ++ [125]

/-- The `finalizeStats` method of `statsRowAnyProcessor`. -/
def statsRowAnyProcessor.finalizeStats (sap : statsRowAnyProcessor) : Bytes :=
  marshalFieldsToJSON sap.fields

/-- Decimal byte rendering of a natural number. -/
def natBytes (n : Nat) : Bytes := (toString n).toList.map Char.toNat

/-- Modelled from the spec: does the row at `rowIdx` count for
`count(fields...)` — always for `count(*)`, otherwise when at least one
listed field is non-empty (§4.4). -/
def countRowMatches (fields : List String) (br : blockResult) (rowIdx : Nat) : Bool :=
  if fields.contains "*" then true
  else fields.any (fun f => (br.getColumnByName f).getValueAtRow br rowIdx ≠ [])

/-- The executable statsFunc fragment: `count` (spec-modelled) and
`row_any` (from the sources).  Each constructor carries the configured
field list. -/
inductive statsFunc where
  | count (fields : List String)
  | row_any (saFields : List String)
deriving DecidableEq, Repr

/-- Aggregator instance state for the executable fragment; like the Go
processors, a state keeps a reference to its function's configuration (the
configured field list). -/
inductive statsState where
  | countState (fields : List String) (n : Nat)
  | rowAnyState (sap : statsRowAnyProcessor)
deriving DecidableEq, Repr

/-- The `newStatsProcessor` dispatch: fresh state for a stats function
(state byte sizes modelled as `0`, see above). -/
def statsFunc.newStatsProcessor : statsFunc → statsState × Int
  | .count fields => (.countState fields 0, 0)
  | .row_any saFields => (.rowAnyState ⟨saFields, false, []⟩, 0)

/-- The `updateStatsForAllRows` dispatch over the executable fragment;
`count` (spec-modelled) adds the number of matching rows of the block. -/
def statsState.updateStatsForAllRows (st : statsState) (br : blockResult) :
    statsState × Int :=
  match st with
  | .countState fields n =>
    (.countState fields
      (n + ((List.range br.rowsLen).filter (fun i => countRowMatches fields br i)).length), 0)
  | .rowAnyState sap =>
    let (sap', d) := sap.updateStatsForAllRows br
    (.rowAnyState sap', d)

/-- The `updateStatsForRow` dispatch over the executable fragment. -/
def statsState.updateStatsForRow (st : statsState) (br : blockResult) (rowIdx : Nat) :
    statsState × Int :=
  match st with
  | .countState fields n =>
    (.countState fields (if countRowMatches fields br rowIdx then n + 1 else n), 0)
  | .rowAnyState sap =>
    let (sap', d) := sap.updateStatsForRow br rowIdx
    (.rowAnyState sap', d)

/-- The `mergeState` dispatch; `count` (spec-modelled) adds the counters.
Go casts the argument to the receiver's concrete type, which is guaranteed
by construction; the unreachable mismatched case keeps the receiver. -/
def statsState.mergeState (st src : statsState) : statsState :=
  match st, src with
  | .countState fields n, .countState _ m => .countState fields (n + m)
  | .rowAnyState sap, .rowAnyState sfp => .rowAnyState (sap.mergeState sfp)
  | st, _ => st

/-- The `finalizeStats` dispatch; `count` (spec-modelled) renders its
counter in decimal. -/
def statsState.finalizeStats (st : statsState) : Bytes :=
  match st with
  | .countState _ n => natBytes n
  | .rowAnyState sap => sap.finalizeStats

/-! ## Plan, shard and per-worker aggregation (`pipeStats`, `pipeStatsProcessorShard`) -/

/-- One aggregator of a plan (`pipeStatsFunc`): the stats function and the
name of its output column.  The executable fragment embeds plans without
per-function `if (...)` filters, i.e. the `iff == nil` fast path of
`applyPerFunctionFilters`; no claim below exercises a filter. -/
structure pipeStatsFunc where
  f : statsFunc
  resultName : String
deriving DecidableEq, Repr

/-- The parsed plan (`pipeStats`): by-fields and aggregators. -/
structure pipeStats where
  byFields : List byStatsField
  funcs : List pipeStatsFunc
deriving DecidableEq, Repr

/-- A group of aggregator states, one per plan function (`pipeStatsGroup`). -/
structure pipeStatsGroup where
  sfps : List statsState
deriving DecidableEq, Repr

/-- Per-worker aggregation state (`pipeStatsProcessorShardNopad`): the map
from encoded group keys to groups (an association list in insertion order)
and the local state-size budget.  The scratch buffers (`bms`, `brs`,
`brsBuf`, `columnValues`, `keyBuf`) are reuse optimisations with no
observable semantics and are not part of the state. -/
structure pipeStatsProcessorShard where
  m : List (Bytes × pipeStatsGroup)
  stateSizeBudget : Int
deriving DecidableEq, Repr

/-- Lookup in a shard map. -/
def assocFind (m : List (Bytes × pipeStatsGroup)) (key : Bytes) : Option pipeStatsGroup :=
  match m.find? (fun e => e.1 = key) with
  | some e => some e.2
  | none => none

/-- Store a group under an existing key of a shard map (pointer update in
Go); keys are never duplicated by construction. -/
def assocSet (m : List (Bytes × pipeStatsGroup)) (key : Bytes) (psg : pipeStatsGroup) :
    List (Bytes × pipeStatsGroup) :=
  m.map (fun e => if e.1 = key then (key, psg) else e)

/-- The `getPipeStatsGroup` method: look the key up; on a miss create fresh
aggregator states, charge their sizes and the key copy against the local
budget, and insert the new group (the per-entry `unsafe.Sizeof` map
overhead is an implementation constant, modelled as `0`). -/
def pipeStatsProcessorShard.getPipeStatsGroup (shard : pipeStatsProcessorShard)
    (ps : pipeStats) (key : Bytes) : pipeStatsGroup × pipeStatsProcessorShard :=
  match assocFind shard.m key with
  | some psg => (psg, shard)
  | none =>
    let created := ps.funcs.map (fun f => f.f.newStatsProcessor)
    let psg : pipeStatsGroup := ⟨created.map Prod.fst⟩
    ⟨psg,
      { m := shard.m ++ [(key, psg)],
        stateSizeBudget :=
          shard.stateSizeBudget - (created.map Prod.snd).sum - Int.ofNat key.length }⟩

/-- The `pipeStatsGroup.updateStatsForAllRows` method: feed every
aggregator its (per-function filtered) block and total the state deltas. -/
def pipeStatsGroup.updateStatsForAllRows (psg : pipeStatsGroup) (brs : List blockResult) :
    pipeStatsGroup × Int :=
  let updated := (psg.sfps.zip brs).map (fun p => p.1.updateStatsForAllRows p.2)
  (⟨updated.map Prod.fst⟩, (updated.map Prod.snd).sum)

/-- The `pipeStatsGroup.updateStatsForRow` method. -/
def pipeStatsGroup.updateStatsForRow (psg : pipeStatsGroup) (brs : List blockResult)
    (rowIdx : Nat) : pipeStatsGroup × Int :=
  let updated := (psg.sfps.zip brs).map (fun p => p.1.updateStatsForRow p.2 rowIdx)
  (⟨updated.map Prod.fst⟩, (updated.map Prod.snd).sum)

/-- The `applyPerFunctionFilters` method, restricted to the embedded
fragment of filterless plans: every aggregator sees the input block
verbatim (the `iff == nil` fast path). -/
def applyPerFunctionFilters (ps : pipeStats) (brSrc : blockResult) : List blockResult :=
  ps.funcs.map (fun _ => brSrc)

/-- Lookup-or-create the group of `key`, update it for all rows of the
per-function blocks, and charge the state delta (the
`psg := getPipeStatsGroup(...); budget -= psg.updateStatsForAllRows(brs)`
pattern of the source). -/
def shardUpdateAllRows (shard : pipeStatsProcessorShard) (ps : pipeStats) (key : Bytes)
    (brs : List blockResult) : pipeStatsProcessorShard :=
  let (psg, shard1) := shard.getPipeStatsGroup ps key
  let (psg', d) := psg.updateStatsForAllRows brs
  { m := assocSet shard1.m key psg', stateSizeBudget := shard1.stateSizeBudget - d }

/-- Build the group key of row `i` from the bucketed by-field columns, as
`keyBuf = MarshalBytes(keyBuf, values[i])` over the columns. -/
def rowKey (columnValues : List (List Bytes)) (i : Nat) : Bytes :=
  columnValues.foldl (fun kb values => marshalBytes kb (values.getD i [])) []

/-- The generic per-row grouping loop shared by the single-column and
multi-column slow paths: walk the rows in order, rebuild the key and
re-resolve the group only when some by-column's value differs from the
previous row, and update the current group for the row. -/
def shardLoopRows (ps : pipeStats) (brs : List blockResult)
    (columnValues : List (List Bytes)) :
    List Nat → pipeStatsProcessorShard → Bytes → pipeStatsProcessorShard
  | [], shard, _ => shard
  | i :: rest, shard, curKey =>
    let sameValue : Bool :=
      decide (0 < i) &&
        columnValues.all (fun values => decide (values.getD (i - 1) [] = values.getD i []))
    let key := if sameValue then curKey else rowKey columnValues i
    let (psg, shard1) := shard.getPipeStatsGroup ps key
    let (psg', d) := psg.updateStatsForRow brs i
    shardLoopRows ps brs columnValues rest
      { m := assocSet shard1.m key psg', stateSizeBudget := shard1.stateSizeBudget - d } key

/-- The `pipeStatsProcessorShard.writeBlock` method: apply per-function
filters, then dispatch to one of the four grouping paths (no by-fields,
single constant column, single varying column, multiple columns). -/
def pipeStatsProcessorShard.writeBlock (shard : pipeStatsProcessorShard) (ps : pipeStats)
    (bucket : bucketFn) (br : blockResult) : pipeStatsProcessorShard :=
  let brs := applyPerFunctionFilters ps br
  match ps.byFields with
  | [] => shardUpdateAllRows shard ps [] brs
  | [bf] =>
    let c := br.getColumnByName bf.name
    if c.isConst then
      let v := br.getBucketedValue bucket (c.valuesEncoded.headD []) bf
      shardUpdateAllRows shard ps (marshalBytes [] v) brs
    else
      let values := c.getValuesBucketed br bucket bf
      if areConstValues values then
        shardUpdateAllRows shard ps (marshalBytes [] (values.headD [])) brs
      else
        shardLoopRows ps brs [values] (List.range br.rowsLen) shard []
  | byFields =>
    let columnValues :=
      byFields.map (fun bf => (br.getColumnByName bf.name).getValuesBucketed br bucket bf)
    if columnValues.all areConstValues then
      shardUpdateAllRows shard ps (rowKey columnValues 0) brs
    else
      shardLoopRows ps brs columnValues (List.range br.rowsLen) shard []

/-! ## Memory budget controller and processor `writeBlock` -/

/-- The borrowing chunk, `stateSizeBudgetChunk = 1 << 20` (1 MiB). -/
def stateSizeBudgetChunk : Int := 1 <<< 20

/-- Result of the budget-borrowing loop at the head of
`pipeStatsProcessor.writeBlock`: final local and global budgets, whether
`cancel()` was invoked, and whether processing proceeds to aggregation. -/
structure borrowResult where
  localBudget : Int
  globalBudget : Int
  cancelled : Bool
  proceed : Bool
deriving DecidableEq, Repr

/-- Fuelled embedding of the `for shard.stateSizeBudget < 0` borrowing
loop; each iteration moves one chunk from the global budget to the local
budget, so `(-localBudget).toNat + 1` units of fuel always suffice. -/
def borrowBudgetAux : Nat → Int → Int → borrowResult
  | 0, localB, globalB => ⟨localB, globalB, false, decide (0 ≤ localB)⟩
  | fuel + 1, localB, globalB =>
    if localB < 0 then
      let remaining := globalB - stateSizeBudgetChunk
      if remaining < 0 then ⟨localB, remaining, decide (0 ≤ remaining + stateSizeBudgetChunk), false⟩
      else borrowBudgetAux fuel (localB + stateSizeBudgetChunk) remaining
    else ⟨localB, globalB, false, true⟩

/-- The budget-borrowing loop of `pipeStatsProcessor.writeBlock`. -/
def borrowBudget (localB globalB : Int) : borrowResult :=
  borrowBudgetAux ((-localB).toNat + 1) localB globalB

/-- The whole processor (`pipeStatsProcessor`): plan, shards, and the global
budget (`maxStateSize` is remembered for the flush error message).  The
external `stopCh` and `cancel` collaborators are represented by the `stop`
flag passed to `flush` and the `Bool` returned by `writeBlock`. -/
structure pipeStatsProcessor where
  ps : pipeStats
  shards : List pipeStatsProcessorShard
  maxStateSize : Int
  stateSizeBudget : Int
deriving DecidableEq, Repr

/-- The `newPipeProcessor` constructor: one shard per worker, each born
with one chunk of local budget pre-charged against the global budget
(`maxStateSizeInit` stands for the external `0.3 × memory.Allowed()`). -/
def pipeStats.newPipeProcessor (ps : pipeStats) (workersCount : Nat)
    (maxStateSizeInit : Int) : pipeStatsProcessor :=
  let maxStateSize := maxStateSizeInit - Int.ofNat workersCount * stateSizeBudgetChunk
  { ps := ps
    shards := List.replicate workersCount ⟨[], stateSizeBudgetChunk⟩
    maxStateSize := maxStateSize
    stateSizeBudget := maxStateSize }

/-- The `pipeStatsProcessor.writeBlock` method: ignore empty blocks, run
the budget-borrowing loop, and either drop the block (returning whether
`cancel()` was invoked) or aggregate it into the worker's shard.  A
`workerID` outside the shard range is excluded by the pipe-processor ABI
(§6.1) and leaves the state unchanged. -/
def pipeStatsProcessor.writeBlock (psp : pipeStatsProcessor) (bucket : bucketFn)
    (workerID : Nat) (br : blockResult) : pipeStatsProcessor × Bool :=
  if br.timestamps.length = 0 then (psp, false)
  else if h : workerID < psp.shards.length then
    let shard := psp.shards.get ⟨workerID, h⟩
    let r := borrowBudget shard.stateSizeBudget psp.stateSizeBudget
    if r.proceed then
      let shard' :=
        pipeStatsProcessorShard.writeBlock { shard with stateSizeBudget := r.localBudget }
          psp.ps bucket br
      ({ psp with shards := psp.shards.set workerID shard',
                  stateSizeBudget := r.globalBudget }, false)
    else
      ({ psp with shards := psp.shards.set workerID { shard with stateSizeBudget := r.localBudget },
                  stateSizeBudget := r.globalBudget }, r.cancelled)
  else (psp, false)

/-! ## Canonical string rendering (for the flush error message) -/

/-- Modelled from the spec: `quoteTokenIfNeeded` (§6.3) quotes an
identifier when it contains non-identifier characters (escaping inside the
quotes is not modelled; no claim exercises it). -/
def quoteTokenIfNeeded (s : String) : String :=
  if s ≠ "" && s.toList.all (fun c => c.isAlphanum || c = '_' || c = '-' || c = '.') then s
  else "\"" ++ s ++ "\""

/-- The `fieldNamesString` helper of the source: quoted field names joined
by commas, with `*` kept verbatim. -/
def fieldNamesString (fields : List String) : String :=
  String.intercalate ", " (fields.map (fun f => if f ≠ "*" then quoteTokenIfNeeded f else f))

/-- Modelled from the spec: `statsFuncFieldsToString` renders an empty
configured-field list as `*` (every aggregator accepts `(*)`, §4.3). -/
def statsFuncFieldsToString (fields : List String) : String :=
  if fields = [] then "*" else fieldNamesString fields

/-- String rendering of a stats function (`statsCount.String`,
`statsRowAny.String`). -/
def statsFunc.render : statsFunc → String
  | .count fields => "count(" ++ fieldNamesString fields ++ ")"
  | .row_any saFields => "row_any(" ++ statsFuncFieldsToString saFields ++ ")"

/-- The `byStatsField.String` method. -/
def byStatsField.render (bf : byStatsField) : String :=
  quoteTokenIfNeeded bf.name ++
    (if bf.bucketSizeStr ≠ "" then
      ":" ++ bf.bucketSizeStr ++
        (if bf.bucketOffsetStr ≠ "" then " offset " ++ bf.bucketOffsetStr else "")
    else "")

/-- The `pipeStats.String` method; a plan without a single stats function
hits `logger.Panicf` in Go, embedded as `none`. -/
def pipeStats.render (ps : pipeStats) : Option String :=
  let byPart :=
    if ps.byFields.length > 0 then
      "by (" ++ String.intercalate ", " (ps.byFields.map byStatsField.render) ++ ") "
    else ""
  if ps.funcs = [] then none
  else
    some ("stats " ++ byPart ++
      String.intercalate ", "
        (ps.funcs.map (fun f => f.f.render ++ " as " ++ quoteTokenIfNeeded f.resultName)))

/-! ## Merge and emit (`pipeStatsProcessor.flush`) -/

/-- Outcome of `flush`: normal return (`nil` error, possibly cut short by
`stopCh`), an error return, or a `logger.Panicf` / runtime panic. -/
inductive flushOutcome where
  | ok
  | err (msg : String)
  | bug (msg : String)
deriving DecidableEq, Repr

/-- An output column under construction (`resultColumn`). -/
structure resultColumn where
  name : String
  values : List Bytes
deriving DecidableEq, Repr

/-- Pairwise merge of two groups of aggregator states
(`for i, sfp := range spgBase.sfps { sfp.mergeState(psg.sfps[i]) }`). -/
def mergeGroupPair (base psg : pipeStatsGroup) : pipeStatsGroup :=
  ⟨(base.sfps.zip psg.sfps).map (fun p => p.1.mergeState p.2)⟩

/-- Fold one shard's key/group pairs into the accumulator map, honouring
the `stopCh` poll before each pair (`none` = stop was signalled and flush
returns success immediately). -/
def mergeShardEntries (stop : Bool) (m : List (Bytes × pipeStatsGroup)) :
    List (Bytes × pipeStatsGroup) → Option (List (Bytes × pipeStatsGroup))
  | [] => some m
  | (key, psg) :: rest =>
    if stop then none
    else
      match assocFind m key with
      | none => mergeShardEntries stop (m ++ [(key, psg)]) rest
      | some base => mergeShardEntries stop (assocSet m key (mergeGroupPair base psg)) rest

/-- Fold shards 1..W-1 into shard 0's map. -/
def mergeAllShards (stop : Bool) (m : List (Bytes × pipeStatsGroup)) :
    List pipeStatsProcessorShard → Option (List (Bytes × pipeStatsGroup))
  | [] => some m
  | sh :: rest =>
    match mergeShardEntries stop m sh.m with
    | none => none
    | some m' => mergeAllShards stop m' rest

/-- Total character bytes of a row of output values. -/
def valuesByteLen (vals : List Bytes) : Nat := (vals.map List.length).sum

/-- The emit loop of `flush`: for every merged group, decode the key into
the by-field columns (a malformed key or a wrong decoded count is a
`logger.Panicf`), append every aggregator's finalized value, and write a
block downstream whenever roughly 1,000,000 value bytes have accumulated;
a final block is always written.  Returns the outcome together with every
block passed to `ppBase.writeBlock`. -/
def emitLoop (stop : Bool) (nby : Nat) :
    List (Bytes × pipeStatsGroup) → List resultColumn → Nat → List (List resultColumn) →
      flushOutcome × List (List resultColumn)
  | [], rcs, _, blocks => (.ok, blocks ++ [rcs])
  | (key, psg) :: rest, rcs, valuesLen, blocks =>
    if stop then (.ok, blocks)
    else
      match decodeKey key with
      | none => (.bug "cannot unmarshal value from keyBuf", blocks)
      | some vs =>
        if vs.length ≠ nby then
          (.bug "unexpected number of values decoded from keyBuf", blocks)
        else
          let vals := vs ++ psg.sfps.map statsState.finalizeStats
          if vals.length ≠ rcs.length then
            (.bug "len(values) must be equal to len(rcs)", blocks)
          else
            let rcs' := (rcs.zip vals).map (fun p => resultColumn.mk p.1.name (p.1.values ++ [p.2]))
            let valuesLen' := valuesLen + valuesByteLen vals
            if 1000000 ≤ valuesLen' then
              emitLoop stop nby rest (rcs'.map (fun rc => resultColumn.mk rc.name [])) 0
                (blocks ++ [rcs'])
            else
              emitLoop stop nby rest rcs' valuesLen' blocks

/-- The emit stage of `flush`: result columns are the by-field names
followed by the aggregator result names (`appendResultColumnWithName`). -/
def flushEmit (stop : Bool) (ps : pipeStats) (m : List (Bytes × pipeStatsGroup)) :
    flushOutcome × List (List resultColumn) :=
  let rcs :=
    ps.byFields.map (fun bf => resultColumn.mk bf.name []) ++
      ps.funcs.map (fun f => resultColumn.mk f.resultName [])
  emitLoop stop ps.byFields.length m rcs 0 []

/-- The `pipeStatsProcessor.flush` method: fail when the loaded global
budget is exhausted; merge the shard maps; synthesise the empty-key group
when a plan without by-fields saw no rows (note the source indexes
`shards[0]` of the already re-sliced `shards[1:]` here); then emit.  The
second component collects every block written to `ppBase`. -/
def pipeStatsProcessor.flush (psp : pipeStatsProcessor) (stop : Bool) :
    flushOutcome × List (List resultColumn) :=
  if psp.stateSizeBudget ≤ 0 then
    match psp.ps.render with
    | none => (.bug "pipeStats must contain at least a single statsFunc", [])
    | some s =>
      (.err ("cannot calculate [" ++ s ++ "], since it requires more than " ++
        toString (Int.tdiv psp.maxStateSize stateSizeBudgetChunk) ++ "MB of memory"), [])
  else
    match psp.shards with
    | [] => (.bug "index out of range: shards[0] on empty shards", [])
    | shard0 :: shardsTail =>
      match mergeAllShards stop shard0.m shardsTail with
      | none => (.ok, [])
      | some m =>
        if psp.ps.byFields.length = 0 ∧ m.length = 0 then
          match shardsTail with
          | [] => (.bug "index out of range: shards[0] on the re-sliced empty shards[1:]", [])
          | sh1 :: _ =>
            let (_, sh1') := sh1.getPipeStatsGroup psp.ps []
            flushEmit stop psp.ps sh1'.m
        else flushEmit stop psp.ps m

/-! ## Surface syntax of the stats clause (`parsePipeStats` and helpers)

The shared lexer is not part of the extracted sources; it is modelled as a
list of pending tokens with `token` = current token (`""` at end of
input).  Compound token/phrase assembly is modelled as taking one
non-delimiter token. -/

/-- Modelled from the spec: the peek-a-token lexer interface (§4.9). -/
structure lexer where
  tokens : List String
deriving DecidableEq, Repr

/-- The current token; the empty string at the end of the input. -/
def lexer.token (lex : lexer) : String := lex.tokens.headD ""

/-- The `nextToken` method. -/
def lexer.nextToken (lex : lexer) : lexer := ⟨lex.tokens.tail⟩

/-- The `isKeyword` method: does the current token equal one of the given
keywords (tokens are assumed already lower-cased by the lexer). -/
def lexer.isKeyword (lex : lexer) (ks : List String) : Bool := ks.contains lex.token

/-- Modelled from the spec: `getCanonicalColumnName` normalises field names
(the implicit `_msg` alias for the empty name, §4.9). -/
def getCanonicalColumnName (s : String) : String := if s = "" then "_msg" else s

/-- Tokens that never start a field name or phrase. -/
def delimiterTokens : List String := ["", "(", ")", ",", "|", ":"]

/-- Modelled from the spec: `getCompoundToken` consumes the current token
as an identifier; grammar delimiters are rejected. -/
def getCompoundToken (lex : lexer) : Option (String × lexer) :=
  if delimiterTokens.contains lex.token then none else some (lex.token, lex.nextToken)

/-- Modelled from the spec: `getCompoundPhrase`, likewise modelled as one
non-delimiter token. -/
def getCompoundPhrase (lex : lexer) : Option (String × lexer) :=
  if delimiterTokens.contains lex.token then none else some (lex.token, lex.nextToken)

/-- The `parseFieldName` helper of the source: a compound token, then
canonicalisation. -/
def parseFieldName (lex : lexer) : Option (String × lexer) :=
  (getCompoundToken lex).map (fun p => (getCanonicalColumnName p.1, p.2))

/-! Numeric literal sub-grammar of bucket sizes and offsets.  None of
`tryParseFloat64`, `tryParseDuration`, `tryParseBytes`, `tryParseIPv4Mask`
nor the `nsecsPer*` constants are part of the extracted sources; they are
modelled from the spec (§3, §4.9): floats, ns-based duration literals,
binary and decimal byte sizes, and `/N` IPv4 masks. -/

/-- Modelled from the spec: nanoseconds per microsecond. -/
def nsecsPerMicrosecond : ℚ := 1000

/-- Modelled from the spec: nanoseconds per millisecond. -/
def nsecsPerMillisecond : ℚ := 1000000

/-- Modelled from the spec: nanoseconds per second. -/
def nsecsPerSecond : ℚ := 1000000000

/-- Modelled from the spec: nanoseconds per minute. -/
def nsecsPerMinute : ℚ := 60 * nsecsPerSecond

/-- Modelled from the spec: nanoseconds per hour. -/
def nsecsPerHour : ℚ := 3600 * nsecsPerSecond

/-- Modelled from the spec: nanoseconds per day. -/
def nsecsPerDay : ℚ := 24 * nsecsPerHour

/-- Modelled from the spec: nanoseconds per week. -/
def nsecsPerWeek : ℚ := 7 * nsecsPerDay

/-- Decimal digits to a natural number. -/
def digitsToNat (cs : List Char) : Nat :=
  cs.foldl (fun n c => n * 10 + (c.toNat - 48)) 0

/-- A non-empty list of decimal digits. -/
def allDigits (cs : List Char) : Bool := !cs.isEmpty && cs.all Char.isDigit

/-- Modelled from the spec: an unsigned decimal literal, either an integer
or `intpart.fracpart`. -/
def tryParseUnsignedFloat (cs : List Char) : Option ℚ :=
  match cs.splitOn '.' with
  | [intPart] => if allDigits intPart then some (digitsToNat intPart) else none
  | [intPart, fracPart] =>
    if allDigits intPart && allDigits fracPart then
      some ((digitsToNat intPart : ℚ) + (digitsToNat fracPart : ℚ) / (10 ^ fracPart.length))
    else none
  | _ => none

/-- Modelled from the spec: a decimal literal with an optional leading
minus sign, over a character list. -/
def tryParseFloatChars (cs : List Char) : Option ℚ :=
  match cs with
  | '-' :: rest => (tryParseUnsignedFloat rest).map Neg.neg
  | cs => tryParseUnsignedFloat cs

/-- Modelled from the spec: `tryParseFloat64`. -/
def tryParseFloat64 (s : String) : Option ℚ :=
  tryParseFloatChars s.toList

/-- Strip a suffix off a character list, or fail. -/
def stripSuffixChars (cs suf : List Char) : Option (List Char) :=
  if suf.isSuffixOf cs then some (cs.take (cs.length - suf.length)) else none

/-- Modelled from the spec: duration unit suffixes with their nanosecond
multipliers (longest suffixes first so that `ms` is not read as `s`). -/
def durationUnits : List (String × ℚ) :=
  [("ns", 1), ("us", nsecsPerMicrosecond), ("ms", nsecsPerMillisecond),
   ("s", nsecsPerSecond), ("m", nsecsPerMinute), ("h", nsecsPerHour),
   ("d", nsecsPerDay), ("w", nsecsPerWeek)]

/-- Modelled from the spec: `tryParseDuration` — a single-component
duration literal `1.5s`, converted to nanoseconds. -/
def tryParseDuration (s : String) : Option ℚ :=
  durationUnits.findSome? (fun u =>
    match stripSuffixChars s.toList u.1.toList with
    | some pre => (tryParseFloatChars pre).map (· * u.2)
    | none => none)

/-- Modelled from the spec: byte-size unit suffixes, binary and decimal
(longest suffixes first). -/
def byteUnits : List (String × ℚ) :=
  [("KiB", 1024), ("MiB", 1024 ^ 2), ("GiB", 1024 ^ 3), ("TiB", 1024 ^ 4),
   ("KB", 1000), ("MB", 1000 ^ 2), ("GB", 1000 ^ 3), ("TB", 1000 ^ 4), ("B", 1)]

/-- Modelled from the spec: `tryParseBytes` — a byte-size literal
`1.5KiB`. -/
def tryParseBytes (s : String) : Option ℚ :=
  byteUnits.findSome? (fun u =>
    match stripSuffixChars s.toList u.1.toList with
    | some pre => (tryParseFloatChars pre).map (· * u.2)
    | none => none)

/-- Modelled from the spec: `tryParseIPv4Mask` — `/N` with `N ≤ 32`
produces `2^(32-N)`. -/
def tryParseIPv4Mask (s : String) : Option ℚ :=
  match s.toList with
  | '/' :: rest =>
    if allDigits rest then
      let n := digitsToNat rest
      if n ≤ 32 then some ((2 : ℚ) ^ (32 - n)) else none
    else none
  | _ => none

/-- The `tryParseBucketSize` helper of the source: named linear calendar
units first, then floats, durations, byte sizes and IPv4 masks. -/
def tryParseBucketSize (s : String) : Option ℚ :=
  match s with
  | "nanosecond" => some 1
  | "microsecond" => some nsecsPerMicrosecond
  | "millisecond" => some nsecsPerMillisecond
  | "second" => some nsecsPerSecond
  | "minute" => some nsecsPerMinute
  | "hour" => some nsecsPerHour
  | "day" => some nsecsPerDay
  | "week" => some nsecsPerWeek
  | _ =>
    ((tryParseFloat64 s).orElse (fun _ =>
      (tryParseDuration s).orElse (fun _ =>
        (tryParseBytes s).orElse (fun _ => tryParseIPv4Mask s))))

/-- The `tryParseBucketOffset` helper of the source: floats, durations and
byte sizes (no named units, no masks). -/
def tryParseBucketOffset (s : String) : Option ℚ :=
  (tryParseFloat64 s).orElse (fun _ =>
    (tryParseDuration s).orElse (fun _ => tryParseBytes s))

/-- One iteration step of `parseByStatsFields`: parse the optional
`:bucketSize [offset bucketOffset]` configuration after a field name.  The
strings `year` and `month` bypass `tryParseBucketSize` and leave
`bucketSize` at `0`; a `/` token is concatenated with the following token
(`/24`), and a `-` offset token likewise. -/
def parseByFieldBucket (fieldName : String) (lex : lexer) : Option (byStatsField × lexer) :=
  if lex.isKeyword [":"] then
    let lex1 := lex.nextToken
    let sizeTok := lex1.token
    let lex2 := lex1.nextToken
    let tmp : String × lexer :=
      if sizeTok = "/" then (sizeTok ++ lex2.token, lex2.nextToken) else (sizeTok, lex2)
    let bucketSizeStr := tmp.1
    let lex3 := tmp.2
    let sizeRes : Option ℚ :=
      if bucketSizeStr ≠ "year" ∧ bucketSizeStr ≠ "month" then tryParseBucketSize bucketSizeStr
      else some 0
    match sizeRes with
    | none => none
    | some bucketSize =>
      if lex3.isKeyword ["offset"] then
        let lex4 := lex3.nextToken
        let offTok := lex4.token
        let lex5 := lex4.nextToken
        let tmp2 : String × lexer :=
          if offTok = "-" then (offTok ++ lex5.token, lex5.nextToken) else (offTok, lex5)
        let bucketOffsetStr := tmp2.1
        let lex6 := tmp2.2
        match tryParseBucketOffset bucketOffsetStr with
        | none => none
        | some bucketOffset =>
          some (⟨fieldName, bucketSizeStr, bucketSize, bucketOffsetStr, bucketOffset⟩, lex6)
      else some (⟨fieldName, bucketSizeStr, bucketSize, "", 0⟩, lex3)
  else some (⟨fieldName, "", 0, "", 0⟩, lex)

/-- The loop of `parseByStatsFields`; fuel bounds the iteration count (each
iteration consumes at least one token). -/
def parseByStatsFieldsAux : Nat → lexer → List byStatsField → Option (List byStatsField × lexer)
  | 0, _, _ => none
  | fuel + 1, lex0, bfs =>
    let lex := lex0.nextToken
    if lex.isKeyword [")"] then some (bfs, lex.nextToken)
    else
      match getCompoundPhrase lex with
      | none => none
      | some (fieldName0, lexA) =>
        match parseByFieldBucket (getCanonicalColumnName fieldName0) lexA with
        | none => none
        | some (bf, lexB) =>
          let bfs := bfs ++ [bf]
          if lexB.isKeyword [")"] then some (bfs, lexB.nextToken)
          else if lexB.isKeyword [","] then parseByStatsFieldsAux fuel lexB bfs
          else none

/-- The `parseByStatsFields` helper of the source. -/
def parseByStatsFields (lex : lexer) : Option (List byStatsField × lexer) :=
  if lex.isKeyword ["("] then parseByStatsFieldsAux (lex.tokens.length + 1) lex [] else none

/-- The loop of `parseFieldNamesInParens`. -/
def parseFieldNamesInParensAux : Nat → lexer → List String → Option (List String × lexer)
  | 0, _, _ => none
  | fuel + 1, lex0, fields =>
    let lex := lex0.nextToken
    if lex.isKeyword [")"] then some (fields, lex.nextToken)
    else if lex.isKeyword [","] then none
    else
      match parseFieldName lex with
      | none => none
      | some (field, lexA) =>
        let fields := fields ++ [field]
        if lexA.isKeyword [")"] then some (fields, lexA.nextToken)
        else if lexA.isKeyword [","] then parseFieldNamesInParensAux fuel lexA fields
        else none

/-- The `parseFieldNamesInParens` helper of the source. -/
def parseFieldNamesInParens (lex : lexer) : Option (List String × lexer) :=
  if lex.isKeyword ["("] then parseFieldNamesInParensAux (lex.tokens.length + 1) lex [] else none

/-- The `parseFieldNamesForStatsFunc` helper of the source: an empty list
or a list containing `*` collapses to `["*"]`. -/
def parseFieldNamesForStatsFunc (lex : lexer) (funcName : String) :
    Option (List String × lexer) :=
  if lex.isKeyword [funcName] then
    match parseFieldNamesInParens lex.nextToken with
    | none => none
    | some (fields, lexA) =>
      some ((if fields.isEmpty || fields.contains "*" then ["*"] else fields), lexA)
  else none

/-- The stats function keywords of the `parseStatsFunc` dispatch (this
vintage of the source does not dispatch `row_any` or `count_empty`'s
younger siblings beyond the twelve below). -/
def statsFuncNames : List String :=
  ["count", "count_empty", "count_uniq", "sum", "max", "min", "avg",
   "uniq_values", "values", "sum_len", "quantile", "median"]

/-- A parsed stats function: its keyword and configured fields.  The
per-function argument grammars beyond plain field lists (such as
`quantile`'s leading phi argument) live in the individual
`parseStatsXxx` helpers, which are not part of the extracted sources;
they are modelled from the spec's grammar `fname "(" args ")"`. -/
structure parsedStatsFunc where
  name : String
  fields : List String
deriving DecidableEq, Repr

/-- The `parseStatsFunc` dispatch over the known function keywords. -/
def parseStatsFunc (lex : lexer) : Option (parsedStatsFunc × lexer) :=
  match statsFuncNames.find? (fun n => lex.token = n) with
  | none => none
  | some n => (parseFieldNamesForStatsFunc lex n).map (fun p => (⟨n, p.1⟩, p.2))

/-- Modelled from the spec: `parseFilter` for `if (...)` clauses, modelled
as one non-empty filter token (no claim exercises filter syntax). -/
def parseFilterExprTok (lex : lexer) : Option (String × lexer) :=
  if lex.token = "" || lex.token = ")" then none else some (lex.token, lex.nextToken)

/-- The `parseIfFilter` helper of the source; `if ()` denotes the no-op
filter (rendered here as the empty string). -/
def parseIfFilter (lex : lexer) : Option (String × lexer) :=
  if lex.isKeyword ["if"] then
    let lex1 := lex.nextToken
    if lex1.isKeyword ["("] then
      let lex2 := lex1.nextToken
      if lex2.isKeyword [")"] then some ("", lex2.nextToken)
      else
        match parseFilterExprTok lex2 with
        | none => none
        | some (f, lex3) => if lex3.isKeyword [")"] then some (f, lex3.nextToken) else none
    else none
  else none

/-- The `parseResultName` helper of the source: an optional `as`, then a
field name. -/
def parseResultName (lex : lexer) : Option (String × lexer) :=
  parseFieldName (if lex.isKeyword ["as"] then lex.nextToken else lex)

/-- One aggregator of a parsed plan: function, optional `if` filter and
result name. -/
structure parsedPipeStatsFunc where
  f : parsedStatsFunc
  iff : Option String
  resultName : String
deriving DecidableEq, Repr

/-- A parsed `stats` clause. -/
structure parsedPipeStats where
  byFields : List byStatsField
  funcs : List parsedPipeStatsFunc
deriving DecidableEq, Repr

/-- The function-list loop of `parsePipeStats`: parse a function, its
optional `if` filter and its result name, append, and stop at `|`, `)` or
the end of the input. -/
def parsePipeStatsFuncsAux : Nat → lexer → List parsedPipeStatsFunc →
    Option (List parsedPipeStatsFunc × lexer)
  | 0, _, _ => none
  | fuel + 1, lex, funcs =>
    match parseStatsFunc lex with
    | none => none
    | some (sf, lex1) =>
      let iffRes : Option (Option String × lexer) :=
        if lex1.isKeyword ["if"] then (parseIfFilter lex1).map (fun p => (some p.1, p.2))
        else some (none, lex1)
      match iffRes with
      | none => none
      | some (iff, lex2) =>
        match parseResultName lex2 with
        | none => none
        | some (resultName, lex3) =>
          let funcs := funcs ++ [⟨sf, iff, resultName⟩]
          if lex3.isKeyword ["|", ")", ""] then some (funcs, lex3)
          else if lex3.isKeyword [","] then parsePipeStatsFuncsAux fuel lex3.nextToken funcs
          else none

/-- The `parsePipeStats` entry point of the source. -/
def parsePipeStats (lex : lexer) : Option (parsedPipeStats × lexer) :=
  if lex.isKeyword ["stats"] then
    let lex1 := lex.nextToken
    let byRes : Option (List byStatsField × lexer) :=
      if lex1.isKeyword ["by", "("] then
        parseByStatsFields (if lex1.isKeyword ["by"] then lex1.nextToken else lex1)
      else some ([], lex1)
    match byRes with
    | none => none
    | some (bfs, lex2) =>
      (parsePipeStatsFuncsAux (lex2.tokens.length + 1) lex2 []).map
        (fun p => (⟨bfs, p.1⟩, p.2))
  else none

/-! ## Auxiliary predicates for the stated properties -/

/-- A group key is well formed for `nby` by-fields when it is the encoding
of some tuple of `nby` values. -/
def keyWF (nby : Nat) (key : Bytes) : Prop :=
  ∃ vs : List Bytes, vs.length = nby ∧ key = encodeKey vs

/-- Every key of a shard map is well formed. -/
def mapKeysWF (nby : Nat) (m : List (Bytes × pipeStatsGroup)) : Prop :=
  ∀ e ∈ m, keyWF nby e.1

/-! # Theorems -/

/-! ## Varint codec round-trip -/

theorem putUvarintAux_of_lt {n : Nat} (fuel : Nat) (h : n < 128) :
    putUvarintAux fuel n = [n] := by
  cases fuel with
  | zero => simp [putUvarintAux, Nat.mod_eq_of_lt h]
  | succ f => simp [putUvarintAux, h]

theorem readUvarint_putUvarintAux (n : Nat) :
    ∀ (fuel : Nat) (rest : Bytes), n ≤ fuel →
      readUvarint (putUvarintAux fuel n ++ rest) =
        some (n, (putUvarintAux fuel n).length) := by
  induction n using Nat.strong_induction_on with
  | _ n ih =>
    intro fuel rest hfuel
    by_cases h : n < 128
    · rw [putUvarintAux_of_lt fuel h]
      simp [readUvarint, h]
    · have h128 : 128 ≤ n := Nat.le_of_not_lt h
      obtain ⟨f, rfl⟩ : ∃ f, fuel = f + 1 :=
        ⟨fuel - 1, by omega⟩
      have hdivlt : n / 128 < n := Nat.div_lt_self (by omega) (by omega)
      have hdivle : n / 128 ≤ f := by
        have := Nat.div_le_self n 128
        omega
      rw [show putUvarintAux (f + 1) n = (n % 128 + 128) :: putUvarintAux f (n / 128) by
        simp [putUvarintAux, h]]
      have hge : ¬ (n % 128 + 128 < 128) := by omega
      simp only [List.cons_append, readUvarint, if_neg hge]
      rw [show (putUvarintAux f (n / 128)).append rest
            = putUvarintAux f (n / 128) ++ rest from rfl,
        ih (n / 128) hdivlt f rest hdivle]
      have harith : n / 128 * 128 + n % 128 = n := by
        have := Nat.div_add_mod n 128
        omega
      simp [harith]

theorem readUvarint_putUvarint (n : Nat) (rest : Bytes) :
    readUvarint (putUvarint n ++ rest) = some (n, (putUvarint n).length) :=
  readUvarint_putUvarintAux n n rest (Nat.le_refl n)

theorem unmarshalBytes_encPiece (b rest : Bytes) :
    unmarshalBytes (encPiece b ++ rest) = some (b, (encPiece b).length) := by
  have h1 : encPiece b ++ rest = putUvarint b.length ++ (b ++ rest) := by
    simp [encPiece]
  rw [h1]
  have hlen : (putUvarint b.length).length + b.length ≤
      (putUvarint b.length ++ (b ++ rest)).length := by
    simp only [List.length_append]
    omega
  show (match readUvarint (putUvarint b.length ++ (b ++ rest)) with
    | none => none
    | some (len, k) =>
      if k + len ≤ (putUvarint b.length ++ (b ++ rest)).length then
        some ((((putUvarint b.length ++ (b ++ rest)).drop k).take len), k + len)
      else none) = some (b, (encPiece b).length)
  rw [readUvarint_putUvarint]
  simp only [if_pos hlen, List.drop_left, List.take_left]
  simp [encPiece, List.length_append]

theorem encPiece_ne_nil (b : Bytes) : encPiece b ≠ [] := by
  unfold encPiece putUvarint
  cases h : putUvarintAux b.length b.length with
  | nil =>
    exfalso
    cases hf : b.length with
    | zero => rw [hf] at h; simp [putUvarintAux] at h
    | succ f =>
      rw [hf] at h
      by_cases hlt : f + 1 < 128
      · simp [putUvarintAux, hlt] at h
      · simp [putUvarintAux, hlt] at h
  | cons x xs => simp

theorem foldl_marshalBytes (vs : List Bytes) :
    ∀ dst : Bytes, vs.foldl marshalBytes dst = dst ++ (vs.map encPiece).flatten := by
  induction vs with
  | nil => intro dst; simp
  | cons v vs ih =>
    intro dst
    simp only [List.foldl_cons, List.map_cons, List.flatten_cons]
    rw [ih]
    simp [marshalBytes, encPiece, List.append_assoc]

theorem encodeKey_eq_flatten (vs : List Bytes) :
    encodeKey vs = (vs.map encPiece).flatten := by
  unfold encodeKey
  rw [foldl_marshalBytes]
  simp

theorem decodeLoopAux_flatten (vs : List Bytes) :
    ∀ (fuel : Nat) (acc : List Bytes),
      ((vs.map encPiece).flatten).length ≤ fuel →
      decodeLoopAux fuel ((vs.map encPiece).flatten) acc = some (acc.reverse ++ vs) := by
  induction vs with
  | nil => intro fuel acc _; cases fuel <;> simp [decodeLoopAux]
  | cons v vs ih =>
    intro fuel acc hfuel
    have hne : encPiece v ++ (vs.map encPiece).flatten ≠ [] := by
      intro hcontra
      exact encPiece_ne_nil v (List.append_eq_nil.mp hcontra).1
    simp only [List.map_cons, List.flatten_cons] at hfuel ⊢
    obtain ⟨b, bs, hcons⟩ : ∃ b bs, encPiece v ++ (vs.map encPiece).flatten = b :: bs := by
      cases h : encPiece v ++ (vs.map encPiece).flatten with
      | nil => exact absurd h hne
      | cons b bs => exact ⟨b, bs, rfl⟩
    obtain ⟨f, rfl⟩ : ∃ f, fuel = f + 1 := by
      refine ⟨fuel - 1, ?_⟩
      have : 0 < (encPiece v ++ (vs.map encPiece).flatten).length := by
        rw [hcons]; simp
      omega
    rw [hcons]
    simp only [decodeLoopAux]
    rw [← hcons]
    show (match unmarshalBytes (encPiece v ++ (vs.map encPiece).flatten) with
      | none => none
      | some (w, n) =>
          decodeLoopAux f ((encPiece v ++ (vs.map encPiece).flatten).drop n) (w :: acc))
        = some (acc.reverse ++ v :: vs)
    rw [unmarshalBytes_encPiece]
    have hdrop : (encPiece v ++ (vs.map encPiece).flatten).drop (encPiece v).length
        = (vs.map encPiece).flatten := List.drop_left _ _
    show decodeLoopAux f ((encPiece v ++ (vs.map encPiece).flatten).drop (encPiece v).length)
        (v :: acc) = some (acc.reverse ++ v :: vs)
    rw [hdrop]
    have hlen : ((vs.map encPiece).flatten).length ≤ f := by
      have h1 : 0 < (encPiece v).length := by
        cases h : encPiece v with
        | nil => exact absurd h (encPiece_ne_nil v)
        | cons x xs => simp
      have h2 : (encPiece v ++ (vs.map encPiece).flatten).length
          = (encPiece v).length + ((vs.map encPiece).flatten).length := by
        simp [List.length_append]
      omega
    rw [ih f (v :: acc) hlen]
    simp

theorem decodeKey_encodeKey (vs : List Bytes) : decodeKey (encodeKey vs) = some vs := by
  unfold decodeKey
  rw [encodeKey_eq_flatten]
  rw [decodeLoopAux_flatten vs _ [] (Nat.le_refl _)]
  simp

/-! ## Well-formedness of group keys through the shard and merge stages -/

theorem rowKey_eq (cv : List (List Bytes)) (i : Nat) :
    rowKey cv i = encodeKey (cv.map (fun values => values.getD i [])) := by
  unfold rowKey encodeKey
  rw [List.foldl_map]

theorem keyWF_rowKey {nby : Nat} (cv : List (List Bytes)) (i : Nat) (h : cv.length = nby) :
    keyWF nby (rowKey cv i) :=
  ⟨cv.map (fun values => values.getD i []), by simp [h], rowKey_eq cv i⟩

theorem keyWF_nil : keyWF 0 [] := ⟨[], rfl, rfl⟩

theorem keyWF_marshalSingle (v : Bytes) : keyWF 1 (marshalBytes [] v) :=
  ⟨[v], rfl, rfl⟩

theorem mapKeysWF_assocSet {nby : Nat} {m : List (Bytes × pipeStatsGroup)} {key : Bytes}
    {psg : pipeStatsGroup} (hm : mapKeysWF nby m) (hk : keyWF nby key) :
    mapKeysWF nby (assocSet m key psg) := by
  intro e he
  unfold assocSet at he
  obtain ⟨e0, he0, heq⟩ := List.mem_map.mp he
  by_cases hc : e0.1 = key
  · rw [if_pos hc] at heq
    rw [← heq]
    exact hk
  · rw [if_neg hc] at heq
    rw [← heq]
    exact hm e0 he0

theorem mapKeysWF_getGroup {nby : Nat} (shard : pipeStatsProcessorShard) (ps : pipeStats)
    (key : Bytes) (hm : mapKeysWF nby shard.m) (hk : keyWF nby key) :
    mapKeysWF nby (shard.getPipeStatsGroup ps key).2.m := by
  unfold pipeStatsProcessorShard.getPipeStatsGroup
  cases h : assocFind shard.m key with
  | some psg => simpa using hm
  | none =>
    simp only
    intro e he
    rcases List.mem_append.mp he with h1 | h2
    · exact hm e h1
    · rw [List.mem_singleton.mp h2]
      exact hk

theorem mapKeysWF_shardUpdateAllRows {nby : Nat} (shard : pipeStatsProcessorShard)
    (ps : pipeStats) (key : Bytes) (brs : List blockResult)
    (hm : mapKeysWF nby shard.m) (hk : keyWF nby key) :
    mapKeysWF nby (shardUpdateAllRows shard ps key brs).m :=
  mapKeysWF_assocSet (mapKeysWF_getGroup shard ps key hm hk) hk

theorem mapKeysWF_shardLoopRows {nby : Nat} (ps : pipeStats) (brs : List blockResult)
    (cv : List (List Bytes)) (hcv : cv.length = nby) :
    ∀ (idxs : List Nat) (shard : pipeStatsProcessorShard) (curKey : Bytes),
      mapKeysWF nby shard.m →
      (keyWF nby curKey ∨ idxs.headD 0 = 0) →
      mapKeysWF nby (shardLoopRows ps brs cv idxs shard curKey).m := by
  intro idxs
  induction idxs with
  | nil =>
    intro shard curKey hm _
    simpa [shardLoopRows] using hm
  | cons i rest ih =>
    intro shard curKey hm hcur
    simp only [shardLoopRows]
    set sv : Bool :=
      decide (0 < i) &&
        cv.all (fun values => decide (values.getD (i - 1) [] = values.getD i [])) with hsv
    have hkey : keyWF nby (if sv then curKey else rowKey cv i) := by
      by_cases hb : sv = true
      · have hi : 0 < i := by
          have := (Bool.and_eq_true _ _).mp (hsv ▸ hb)
          exact of_decide_eq_true this.1
        rcases hcur with hc | hc
        · rw [if_pos hb]; exact hc
        · exfalso; simp at hc; omega
      · rw [if_neg hb]
        exact keyWF_rowKey cv i hcv
    exact ih _ _
      (mapKeysWF_assocSet (mapKeysWF_getGroup shard ps _ hm hkey) hkey)
      (Or.inl hkey)

theorem mapKeysWF_writeBlock (ps : pipeStats) (bucket : bucketFn)
    (shard : pipeStatsProcessorShard) (br : blockResult)
    (hm : mapKeysWF ps.byFields.length shard.m) :
    mapKeysWF ps.byFields.length (shard.writeBlock ps bucket br).m := by
  unfold pipeStatsProcessorShard.writeBlock
  rcases hby : ps.byFields with _ | ⟨bf, _ | ⟨bf2, bfrest⟩⟩
  · rw [hby] at hm
    exact mapKeysWF_shardUpdateAllRows _ _ _ _ hm keyWF_nil
  · rw [hby] at hm
    by_cases hconst : (br.getColumnByName bf.name).isConst = true
    · simp only [hconst, if_true]
      exact mapKeysWF_shardUpdateAllRows _ _ _ _ hm (keyWF_marshalSingle _)
    · simp only [hconst, if_false, Bool.false_eq_true]
      by_cases hcv : areConstValues ((br.getColumnByName bf.name).getValuesBucketed br bucket bf) = true
      · simp only [hcv, if_true]
        exact mapKeysWF_shardUpdateAllRows _ _ _ _ hm (keyWF_marshalSingle _)
      · simp only [hcv, Bool.false_eq_true, if_false]
        refine mapKeysWF_shardLoopRows ps _ _ rfl _ _ _ hm (Or.inr ?_)
        cases br.rowsLen <;> simp [List.range_succ_eq_map]
  · rw [hby] at hm
    by_cases hall : ((bf :: bf2 :: bfrest).map
        (fun b => (br.getColumnByName b.name).getValuesBucketed br bucket b)).all areConstValues = true
    · simp only [hall, if_true]
      refine mapKeysWF_shardUpdateAllRows _ _ _ _ hm (keyWF_rowKey _ _ ?_)
      simp
    · simp only [hall, Bool.false_eq_true, if_false]
      refine mapKeysWF_shardLoopRows ps _ _ (by simp) _ _ _ hm (Or.inr ?_)
      cases br.rowsLen <;> simp [List.range_succ_eq_map]

theorem mapKeysWF_mergeShardEntries {nby : Nat} (stop : Bool) :
    ∀ (entries m m' : List (Bytes × pipeStatsGroup)),
      mapKeysWF nby m → (∀ e ∈ entries, keyWF nby e.1) →
      mergeShardEntries stop m entries = some m' → mapKeysWF nby m' := by
  intro entries
  induction entries with
  | nil =>
    intro m m' hm _ h
    simp only [mergeShardEntries] at h
    rw [← Option.some_inj.mp h]
    exact hm
  | cons e rest ih =>
    intro m m' hm hent h
    obtain ⟨key, psg⟩ := e
    simp only [mergeShardEntries] at h
    by_cases hs : stop = true
    · rw [if_pos hs] at h; exact absurd h (by simp)
    · rw [if_neg hs] at h
      have hkey : keyWF nby key := hent (key, psg) (by simp)
      cases hfind : assocFind m key with
      | none =>
        rw [hfind] at h
        refine ih _ _ ?_ (fun e he => hent e (by simp [he])) h
        intro e he
        rcases List.mem_append.mp he with h1 | h2
        · exact hm e h1
        · rw [List.mem_singleton.mp h2]; exact hkey
      | some base =>
        rw [hfind] at h
        exact ih _ _ (mapKeysWF_assocSet hm hkey) (fun e he => hent e (by simp [he])) h

theorem mapKeysWF_mergeAllShards {nby : Nat} (stop : Bool) :
    ∀ (shards : List pipeStatsProcessorShard) (m m' : List (Bytes × pipeStatsGroup)),
      mapKeysWF nby m → (∀ sh ∈ shards, mapKeysWF nby sh.m) →
      mergeAllShards stop m shards = some m' → mapKeysWF nby m' := by
  intro shards
  induction shards with
  | nil =>
    intro m m' hm _ h
    simp only [mergeAllShards] at h
    rw [← Option.some_inj.mp h]
    exact hm
  | cons sh rest ih =>
    intro m m' hm hsh h
    simp only [mergeAllShards] at h
    cases hme : mergeShardEntries stop m sh.m with
    | none => rw [hme] at h; exact absurd h (by simp)
    | some m1 =>
      rw [hme] at h
      refine ih _ _ ?_ (fun s hs => hsh s (by simp [hs])) h
      exact mapKeysWF_mergeShardEntries stop _ _ _ hm (hsh sh (by simp)) hme

/-- C5: the group-key codec round-trips.  First conjunct: decoding the
length-prefixed encoding of any tuple of bucketed by-field values yields
exactly that tuple.  Second conjunct: `pipeStatsProcessorShard.writeBlock`
only ever stores keys built by `encodeKey` from tuples of exactly
`len(byFields)` bucketed values (for any bucketing function).  Third
conjunct: the merge stage preserves this, so every key present in the
merged map at emit time decodes, via the flush loop's `UnmarshalBytes`
scheme, to exactly `len(byFields)` values equal to the values that were
encoded with `MarshalBytes` when the key was built. -/
theorem c5_group_key_roundtrip :
    (∀ vs : List Bytes, decodeKey (encodeKey vs) = some vs) ∧
    (∀ (ps : pipeStats) (bucket : bucketFn) (shard : pipeStatsProcessorShard)
       (br : blockResult), mapKeysWF ps.byFields.length shard.m →
       mapKeysWF ps.byFields.length (shard.writeBlock ps bucket br).m) ∧
    (∀ (nby : Nat) (stop : Bool) (m : List (Bytes × pipeStatsGroup))
       (shards : List pipeStatsProcessorShard) (m' : List (Bytes × pipeStatsGroup)),
       mapKeysWF nby m → (∀ sh ∈ shards, mapKeysWF nby sh.m) →
       mergeAllShards stop m shards = some m' →
       ∀ e ∈ m', ∃ vs, decodeKey e.1 = some vs ∧ vs.length = nby ∧ e.1 = encodeKey vs) := by
  refine ⟨decodeKey_encodeKey, mapKeysWF_writeBlock, ?_⟩
  intro nby stop m shards m' hm hsh hmerge e he
  obtain ⟨vs, hlen, hkey⟩ := mapKeysWF_mergeAllShards stop shards m m' hm hsh hmerge e he
  exact ⟨vs, by rw [hkey]; exact decodeKey_encodeKey vs, hlen, hkey⟩

/-- Witness for C5: the shard invariant applied to a concrete block written
into an empty shard under a single-by-field plan. -/
theorem c5_group_key_roundtrip_witness :
    mapKeysWF 1 ((pipeStatsProcessorShard.writeBlock ⟨[], 0⟩
      ⟨[⟨"x", "", 0, "", 0⟩], [⟨.count ["*"], "n"⟩]⟩ (fun v _ => v)
      ⟨[0, 1, 2], [⟨"x", false, [[97], [98], [97]]⟩]⟩).m) :=
  c5_group_key_roundtrip.2.1 ⟨[⟨"x", "", 0, "", 0⟩], [⟨.count ["*"], "n"⟩]⟩ (fun v _ => v)
    ⟨[], 0⟩ ⟨[0, 1, 2], [⟨"x", false, [[97], [98], [97]]⟩]⟩ (by intro e he; simp at he)

/-! ## Budget-borrowing loop lemmas -/

theorem stateSizeBudgetChunk_eq : stateSizeBudgetChunk = 1048576 := by decide

theorem borrowBudgetAux_nonneg (fuel : Nat) (localB globalB : Int) (h : 0 ≤ localB) :
    borrowBudgetAux fuel localB globalB = ⟨localB, globalB, false, true⟩ := by
  cases fuel with
  | zero => simp [borrowBudgetAux, h, decide_eq_true_eq]
  | succ f => simp [borrowBudgetAux, Int.not_lt.mpr h]

theorem borrowBudgetAux_fuelIrrel :
    ∀ (f1 f2 : Nat) (localB globalB : Int), (-localB).toNat < f1 → (-localB).toNat < f2 →
      borrowBudgetAux f1 localB globalB = borrowBudgetAux f2 localB globalB := by
  intro f1
  induction f1 with
  | zero => intro f2 localB globalB h1 _; omega
  | succ a ih =>
    intro f2 localB globalB h1 h2
    by_cases hl : localB < 0
    · have hpos : 1 ≤ (-localB).toNat := by omega
      obtain ⟨b, rfl⟩ : ∃ b, f2 = b + 1 := ⟨f2 - 1, by omega⟩
      simp only [borrowBudgetAux, if_pos hl]
      by_cases hrem : globalB - stateSizeBudgetChunk < 0
      · rw [if_pos hrem, if_pos hrem]
      · rw [if_neg hrem, if_neg hrem]
        refine ih b (localB + stateSizeBudgetChunk) (globalB - stateSizeBudgetChunk) ?_ ?_ <;>
          (rw [stateSizeBudgetChunk_eq] at *; omega)
    · have hnn : 0 ≤ localB := Int.not_lt.mp hl
      rw [borrowBudgetAux_nonneg _ _ _ hnn, borrowBudgetAux_nonneg _ _ _ hnn]

theorem borrowBudget_unfold (localB globalB : Int) :
    borrowBudget localB globalB =
      if localB < 0 then
        if globalB - stateSizeBudgetChunk < 0 then
          ⟨localB, globalB - stateSizeBudgetChunk, decide (0 ≤ globalB), false⟩
        else borrowBudget (localB + stateSizeBudgetChunk) (globalB - stateSizeBudgetChunk)
      else ⟨localB, globalB, false, true⟩ := by
  by_cases hl : localB < 0
  · rw [if_pos hl]
    have hstep : borrowBudget localB globalB =
        (if globalB - stateSizeBudgetChunk < 0 then
          (⟨localB, globalB - stateSizeBudgetChunk,
            decide (0 ≤ globalB - stateSizeBudgetChunk + stateSizeBudgetChunk), false⟩ :
              borrowResult)
        else borrowBudgetAux ((-localB).toNat) (localB + stateSizeBudgetChunk)
          (globalB - stateSizeBudgetChunk)) := by
      show borrowBudgetAux ((-localB).toNat + 1) localB globalB = _
      simp only [borrowBudgetAux, if_pos hl]
    rw [hstep]
    by_cases hrem : globalB - stateSizeBudgetChunk < 0
    · rw [if_pos hrem, if_pos hrem]
      have harith : globalB - stateSizeBudgetChunk + stateSizeBudgetChunk = globalB := by omega
      rw [harith]
    · rw [if_neg hrem, if_neg hrem]
      have hchunk : stateSizeBudgetChunk = 1048576 := stateSizeBudgetChunk_eq
      exact (borrowBudgetAux_fuelIrrel _ _ _ _ (by omega) (by omega)).symm
  · rw [if_neg hl]
    exact borrowBudgetAux_nonneg _ _ _ (Int.not_lt.mp hl)

theorem borrowBudget_specAux :
    ∀ (n : Nat) (localB globalB : Int), (-localB).toNat = n →
      ((borrowBudget localB globalB).proceed = false →
        (borrowBudget localB globalB).globalBudget < 0 ∧
        (borrowBudget localB globalB).localBudget + (borrowBudget localB globalB).globalBudget
          = localB + globalB - stateSizeBudgetChunk ∧
        (borrowBudget localB globalB).localBudget < 0 ∧
        ((borrowBudget localB globalB).cancelled = true ↔
          0 ≤ (borrowBudget localB globalB).globalBudget + stateSizeBudgetChunk)) ∧
      ((borrowBudget localB globalB).proceed = true →
        0 ≤ (borrowBudget localB globalB).localBudget ∧
        (borrowBudget localB globalB).localBudget + (borrowBudget localB globalB).globalBudget
          = localB + globalB ∧
        (localB < 0 → 0 ≤ (borrowBudget localB globalB).globalBudget)) ∧
      (0 ≤ localB → borrowBudget localB globalB = ⟨localB, globalB, false, true⟩) := by
  intro n
  induction n using Nat.strong_induction_on with
  | _ n ih =>
    intro localB globalB hn
    have hchunk : stateSizeBudgetChunk = 1048576 := stateSizeBudgetChunk_eq
    by_cases hl : localB < 0
    · rw [borrowBudget_unfold, if_pos hl]
      by_cases hrem : globalB - stateSizeBudgetChunk < 0
      · rw [if_pos hrem]
        refine ⟨fun _ => ⟨hrem,
          show localB + (globalB - stateSizeBudgetChunk)
            = localB + globalB - stateSizeBudgetChunk by omega, hl, ?_⟩,
          fun hp => by simp at hp,
          fun hge => absurd hge (by omega)⟩
        simp only [decide_eq_true_eq]
        omega
      · rw [if_neg hrem]
        have hlt : (-(localB + stateSizeBudgetChunk)).toNat < n := by omega
        have hspec := ih _ hlt (localB + stateSizeBudgetChunk) (globalB - stateSizeBudgetChunk) rfl
        refine ⟨fun hp => ?_, fun hp => ?_, fun hge => absurd hge (by omega)⟩
        · obtain ⟨h1, h2, h3, h4⟩ := hspec.1 hp
          exact ⟨h1, by omega, by omega, h4⟩
        · obtain ⟨h1, h2, h3⟩ := hspec.2.1 hp
          refine ⟨h1, by omega, fun _ => ?_⟩
          by_cases hl2 : localB + stateSizeBudgetChunk < 0
          · exact h3 hl2
          · rw [hspec.2.2 (by omega)] at h1 h2 ⊢
            simp only at h1 h2 ⊢
            omega
    · have hnn : 0 ≤ localB := Int.not_lt.mp hl
      rw [borrowBudget_unfold, if_neg hl]
      exact ⟨fun hp => by simp at hp, fun _ => ⟨hnn, rfl, fun hc => absurd hc hl⟩, fun _ => rfl⟩

theorem borrowBudget_spec (localB globalB : Int) :
    ((borrowBudget localB globalB).proceed = false →
      (borrowBudget localB globalB).globalBudget < 0 ∧
      (borrowBudget localB globalB).localBudget + (borrowBudget localB globalB).globalBudget
        = localB + globalB - stateSizeBudgetChunk ∧
      (borrowBudget localB globalB).localBudget < 0 ∧
      ((borrowBudget localB globalB).cancelled = true ↔
        0 ≤ (borrowBudget localB globalB).globalBudget + stateSizeBudgetChunk)) ∧
    ((borrowBudget localB globalB).proceed = true →
      0 ≤ (borrowBudget localB globalB).localBudget ∧
      (borrowBudget localB globalB).localBudget + (borrowBudget localB globalB).globalBudget
        = localB + globalB ∧
      (localB < 0 → 0 ≤ (borrowBudget localB globalB).globalBudget)) ∧
    (0 ≤ localB → borrowBudget localB globalB = ⟨localB, globalB, false, true⟩) :=
  borrowBudget_specAux _ localB globalB rfl

/-- C2: on every `writeBlock` call with a non-empty block, the processor
runs the chunked borrowing loop against the global budget.  First
conjunct: the call aggregates the block into the worker's shard exactly
when the loop proceeds, and otherwise drops the block, updating only the
budgets and reporting whether `cancel()` was invoked.  Second conjunct: in
the dropping case the post-subtraction global value is negative and
`cancel()` is invoked iff the value before this last subtraction (i.e.
`globalBudget + CHUNK`) was still non-negative — only the first shard to
observe exhaustion cancels.  Third conjunct: when the loop proceeds the
local budget is non-negative again and the chunks moved from the global to
the local budget are conserved. -/
theorem c2_writeBlock_budget_loop (psp : pipeStatsProcessor) (bucket : bucketFn)
    (workerID : Nat) (br : blockResult) (hne : br.timestamps.length ≠ 0)
    (hw : workerID < psp.shards.length) (r : borrowResult)
    (hr : r = borrowBudget (psp.shards.get ⟨workerID, hw⟩).stateSizeBudget
      psp.stateSizeBudget) :
    (psp.writeBlock bucket workerID br =
      if r.proceed then
        ({ psp with
            shards := psp.shards.set workerID
              (pipeStatsProcessorShard.writeBlock
                { psp.shards.get ⟨workerID, hw⟩ with stateSizeBudget := r.localBudget }
                psp.ps bucket br),
            stateSizeBudget := r.globalBudget }, false)
      else
        ({ psp with
            shards := psp.shards.set workerID
              { psp.shards.get ⟨workerID, hw⟩ with stateSizeBudget := r.localBudget },
            stateSizeBudget := r.globalBudget }, r.cancelled)) ∧
    (r.proceed = false →
      r.globalBudget < 0 ∧ r.localBudget < 0 ∧
      (r.cancelled = true ↔ 0 ≤ r.globalBudget + stateSizeBudgetChunk)) ∧
    (r.proceed = true →
      0 ≤ r.localBudget ∧
      r.localBudget + r.globalBudget =
        (psp.shards.get ⟨workerID, hw⟩).stateSizeBudget + psp.stateSizeBudget) := by
  subst hr
  refine ⟨?_, fun hp => ?_, fun hp => ?_⟩
  · simp only [pipeStatsProcessor.writeBlock, if_neg hne, hw, dif_pos]
  · have h := (borrowBudget_spec (psp.shards.get ⟨workerID, hw⟩).stateSizeBudget
      psp.stateSizeBudget).1 hp
    exact ⟨h.1, h.2.2.1, h.2.2.2⟩
  · have h := (borrowBudget_spec (psp.shards.get ⟨workerID, hw⟩).stateSizeBudget
      psp.stateSizeBudget).2.1 hp
    exact ⟨h.1, h.2.1⟩

/-- Witness for C2 at a concrete processor whose worker shard has local
budget `-5` and whose global budget holds three chunks: the loop proceeds,
restores a non-negative local budget and conserves the budget sum. -/
theorem c2_writeBlock_budget_loop_witness :
    0 ≤ (borrowBudget (-5) (3 * stateSizeBudgetChunk)).localBudget ∧
    (borrowBudget (-5) (3 * stateSizeBudgetChunk)).localBudget +
      (borrowBudget (-5) (3 * stateSizeBudgetChunk)).globalBudget
        = -5 + 3 * stateSizeBudgetChunk :=
  (c2_writeBlock_budget_loop
      ⟨⟨[], [⟨.count ["*"], "n"⟩]⟩, [⟨[], -5⟩], 100, 3 * stateSizeBudgetChunk⟩
      (fun v _ => v) 0 ⟨[0], []⟩ (by decide) (by decide) _ rfl).2.2 (by decide)

/-- C9: a `writeBlock` call with a zero-row block is a complete no-op for
every worker identifier — the processor state (shard maps, aggregator
states, local and global budgets) is returned unchanged and `cancel()` is
not invoked. -/
theorem c9_writeBlock_empty_block_noop (psp : pipeStatsProcessor) (bucket : bucketFn)
    (workerID : Nat) (br : blockResult) (h : br.timestamps.length = 0) :
    psp.writeBlock bucket workerID br = (psp, false) := by
  unfold pipeStatsProcessor.writeBlock
  rw [if_pos h]

/-- Witness for C9 at a concrete processor and an empty block. -/
theorem c9_writeBlock_empty_block_noop_witness :
    pipeStatsProcessor.writeBlock
      ⟨⟨[], [⟨.count ["*"], "n"⟩]⟩, [⟨[], 7⟩], 42, 42⟩ (fun v _ => v) 3 ⟨[], []⟩
      = (⟨⟨[], [⟨.count ["*"], "n"⟩]⟩, [⟨[], 7⟩], 42, 42⟩, false) :=
  c9_writeBlock_empty_block_noop _ _ 3 _ rfl

/-- C1 (code bug): with a single worker, no by-fields, no input rows and a
healthy budget, `flush` does not synthesise the empty-key group — after
`shards = shards[1:]` the source indexes `shards[0]` of the now-empty
slice, an index-out-of-range panic (first conjunct).  With two workers the
intended behaviour is observed: exactly one output row carrying the
aggregator's no-input finalize value, `count(*) = "0"` (byte `48`), in a
single output block (second conjunct). -/
theorem c1_flush_zero_rows_empty_key_group :
    (pipeStatsProcessor.flush
        ⟨⟨[], [⟨.count ["*"], "n"⟩]⟩, [⟨[], stateSizeBudgetChunk⟩],
          stateSizeBudgetChunk, stateSizeBudgetChunk⟩ false
      = (.bug "index out of range: shards[0] on the re-sliced empty shards[1:]", [])) ∧
    (pipeStatsProcessor.flush
        ⟨⟨[], [⟨.count ["*"], "n"⟩]⟩, [⟨[], stateSizeBudgetChunk⟩, ⟨[], stateSizeBudgetChunk⟩],
          stateSizeBudgetChunk, stateSizeBudgetChunk⟩ false
      = (.ok, [[⟨"n", [[48]]⟩]])) :=
  ⟨by decide, by decide⟩

/-! ## Flush outcome and output schema lemmas -/

theorem emitLoop_no_err (stop : Bool) (nby : Nat) :
    ∀ (entries : List (Bytes × pipeStatsGroup)) (rcs : List resultColumn) (valuesLen : Nat)
      (blocks : List (List resultColumn)) (msg : String),
      (emitLoop stop nby entries rcs valuesLen blocks).1 ≠ .err msg := by
  intro entries
  induction entries with
  | nil => intro rcs valuesLen blocks msg; simp [emitLoop]
  | cons e rest ih =>
    intro rcs valuesLen blocks msg
    obtain ⟨key, psg⟩ := e
    simp only [emitLoop]
    split
    · simp
    · split
      · simp
      · split
        · simp
        · split
          · simp
          · split
            · exact ih _ _ _ _
            · exact ih _ _ _ _

theorem flushEmit_no_err (stop : Bool) (ps : pipeStats) (m : List (Bytes × pipeStatsGroup))
    (msg : String) : (flushEmit stop ps m).1 ≠ .err msg :=
  emitLoop_no_err stop ps.byFields.length m _ 0 [] msg

/-- C3: `flush` returns an error exactly when the loaded global state-size
budget is `≤ 0` (on a plan with at least one stats function, which every
parsed plan has); in that case the error message names the canonical pipe
string and the configured maximum expressed in MiB
(`maxStateSize / (1<<20)`), and no output block is written downstream. -/
theorem c3_flush_budget_error (psp : pipeStatsProcessor) (stop : Bool)
    (hfuncs : psp.ps.funcs ≠ []) :
    ((∃ msg, (psp.flush stop).1 = .err msg) ↔ psp.stateSizeBudget ≤ 0) ∧
    (psp.stateSizeBudget ≤ 0 → ∀ s, psp.ps.render = some s →
      psp.flush stop =
        (.err ("cannot calculate [" ++ s ++ "], since it requires more than "
          ++ toString (Int.tdiv psp.maxStateSize stateSizeBudgetChunk) ++ "MB of memory"),
         [])) := by
  by_cases hb : psp.stateSizeBudget ≤ 0
  · have hrender : psp.ps.render
        = some ("stats " ++
            (if psp.ps.byFields.length > 0 then
              "by (" ++ String.intercalate ", " (psp.ps.byFields.map byStatsField.render) ++ ") "
            else "") ++
            String.intercalate ", " (psp.ps.funcs.map
              (fun f => f.f.render ++ " as " ++ quoteTokenIfNeeded f.resultName))) := by
      unfold pipeStats.render
      rw [if_neg hfuncs]
    have hflush : ∀ s, psp.ps.render = some s →
        psp.flush stop =
          (.err ("cannot calculate [" ++ s ++ "], since it requires more than "
            ++ toString (Int.tdiv psp.maxStateSize stateSizeBudgetChunk) ++ "MB of memory"),
           []) := by
      intro s hs
      unfold pipeStatsProcessor.flush
      rw [if_pos hb, hs]
    refine ⟨⟨fun _ => hb, fun _ => ⟨_, by rw [hflush _ hrender]⟩⟩, fun _ => hflush⟩
  · have hnoerr : ∀ msg, (psp.flush stop).1 ≠ .err msg := by
      intro msg
      unfold pipeStatsProcessor.flush
      rw [if_neg hb]
      cases psp.shards with
      | nil => simp
      | cons shard0 shardsTail =>
        simp only
        cases mergeAllShards stop shard0.m shardsTail with
        | none => simp
        | some m =>
          simp only
          split
          · cases shardsTail with
            | nil => simp
            | cons sh1 t => exact flushEmit_no_err _ _ _ _
          · exact flushEmit_no_err _ _ _ _
    exact ⟨⟨fun ⟨msg, hmsg⟩ => absurd hmsg (hnoerr msg), fun hb' => absurd hb' hb⟩,
      fun hb' => absurd hb' hb⟩

/-- Witness for C3: a concrete exhausted processor (`stateSizeBudget = 0`)
yields exactly the budget error with the rendered pipe string and the
MiB maximum, and emits nothing. -/
theorem c3_flush_budget_error_witness :
    pipeStatsProcessor.flush
        ⟨⟨[], [⟨.count ["*"], "n"⟩]⟩, [⟨[], 1⟩], 100 * stateSizeBudgetChunk, 0⟩ false =
      (.err ("cannot calculate [" ++ "stats count(*) as n" ++ "], since it requires more than "
        ++ toString (Int.tdiv (100 * stateSizeBudgetChunk) stateSizeBudgetChunk)
        ++ "MB of memory"), []) :=
  (c3_flush_budget_error
      ⟨⟨[], [⟨.count ["*"], "n"⟩]⟩, [⟨[], 1⟩], 100 * stateSizeBudgetChunk, 0⟩ false
      (by decide)).2 (by decide) "stats count(*) as n" (by decide)

theorem map_name_zip_addValue (rcs : List resultColumn) (vals : List Bytes)
    (h : rcs.length ≤ vals.length) :
    ((rcs.zip vals).map (fun p => resultColumn.mk p.1.name (p.1.values ++ [p.2]))).map
        resultColumn.name = rcs.map resultColumn.name := by
  rw [List.map_map]
  have : (resultColumn.name ∘ fun p : resultColumn × Bytes =>
      resultColumn.mk p.1.name (p.1.values ++ [p.2]))
      = (fun p : resultColumn × Bytes => p.1.name) := rfl
  rw [this]
  have h2 : (fun p : resultColumn × Bytes => p.1.name)
      = (resultColumn.name ∘ Prod.fst) := rfl
  rw [h2, ← List.map_map, List.map_fst_zip rcs vals h]

theorem emitLoop_block_names (stop : Bool) (nby : Nat) (names : List String) :
    ∀ (entries : List (Bytes × pipeStatsGroup)) (rcs : List resultColumn) (valuesLen : Nat)
      (blocks : List (List resultColumn)),
      rcs.map resultColumn.name = names →
      (∀ blk ∈ blocks, blk.map resultColumn.name = names) →
      ∀ blk ∈ (emitLoop stop nby entries rcs valuesLen blocks).2,
        blk.map resultColumn.name = names := by
  intro entries
  induction entries with
  | nil =>
    intro rcs valuesLen blocks hrcs hblocks blk hblk
    simp only [emitLoop] at hblk
    rcases List.mem_append.mp hblk with h1 | h2
    · exact hblocks blk h1
    · rw [List.mem_singleton.mp h2]; exact hrcs
  | cons e rest ih =>
    intro rcs valuesLen blocks hrcs hblocks blk hblk
    obtain ⟨key, psg⟩ := e
    simp only [emitLoop] at hblk
    split at hblk
    · exact hblocks blk hblk
    · split at hblk
      · exact hblocks blk hblk
      · rename_i vs _
        split at hblk
        · exact hblocks blk hblk
        · split at hblk
          · exact hblocks blk hblk
          · rename_i hlen
            have hle : rcs.length ≤ (vs ++ psg.sfps.map statsState.finalizeStats).length := by
              omega
            have hnames :
                ((rcs.zip (vs ++ psg.sfps.map statsState.finalizeStats)).map
                  (fun p => resultColumn.mk p.1.name (p.1.values ++ [p.2]))).map
                    resultColumn.name = names := by
              rw [map_name_zip_addValue _ _ hle, hrcs]
            split at hblk
            · refine ih _ _ _ ?_ ?_ blk hblk
              · rw [List.map_map]
                have : (resultColumn.name ∘ fun rc : resultColumn =>
                    resultColumn.mk rc.name []) = resultColumn.name := rfl
                rw [this, hnames]
              · intro b hb
                rcases List.mem_append.mp hb with h1 | h2
                · exact hblocks b h1
                · rw [List.mem_singleton.mp h2]; exact hnames
            · exact ih _ _ _ hnames hblocks blk hblk

/-- C6: every output block constructed by `flush` has exactly
`len(byFields) + len(funcs)` columns, in order the by-field columns (named
after the by-fields) followed by one column per aggregator named by its
`resultName`. -/
theorem c6_output_schema (psp : pipeStatsProcessor) (stop : Bool) :
    ∀ blk ∈ (psp.flush stop).2,
      blk.map resultColumn.name =
        psp.ps.byFields.map byStatsField.name ++ psp.ps.funcs.map (fun f => f.resultName) ∧
      blk.length = psp.ps.byFields.length + psp.ps.funcs.length := by
  have hemit : ∀ (m : List (Bytes × pipeStatsGroup)) (blk : List resultColumn),
      blk ∈ (flushEmit stop psp.ps m).2 →
      blk.map resultColumn.name =
        psp.ps.byFields.map byStatsField.name ++ psp.ps.funcs.map (fun f => f.resultName) := by
    intro m blk hblk
    refine emitLoop_block_names stop psp.ps.byFields.length _ m _ 0 [] ?_ (by simp) blk hblk
    simp only [List.map_append, List.map_map]
    congr 1
  intro blk hblk
  have hnames : blk.map resultColumn.name =
      psp.ps.byFields.map byStatsField.name ++ psp.ps.funcs.map (fun f => f.resultName) := by
    revert hblk
    unfold pipeStatsProcessor.flush
    by_cases hb : psp.stateSizeBudget ≤ 0
    · rw [if_pos hb]
      cases psp.ps.render <;> (intro h; simp at h)
    · rw [if_neg hb]
      cases psp.shards with
      | nil => intro h; simp at h
      | cons shard0 shardsTail =>
        simp only
        cases mergeAllShards stop shard0.m shardsTail with
        | none => intro h; simp at h
        | some m =>
          simp only
          split
          · cases shardsTail with
            | nil => intro h; simp at h
            | cons sh1 t => exact hemit _ blk
          · exact hemit _ blk
  refine ⟨hnames, ?_⟩
  have := congrArg List.length hnames
  simpa using this

/-- Witness for C6: the single block emitted by a concrete two-worker
`count(*)` processor over no input has the one column `n`. -/
theorem c6_output_schema_witness :
    ([⟨"n", [[48]]⟩] : List resultColumn).map resultColumn.name =
        ([] : List byStatsField).map byStatsField.name ++
          ([⟨.count ["*"], "n"⟩] : List pipeStatsFunc).map (fun f => f.resultName) ∧
      ([⟨"n", [[48]]⟩] : List resultColumn).length =
        ([] : List byStatsField).length + ([⟨.count ["*"], "n"⟩] : List pipeStatsFunc).length :=
  c6_output_schema
    ⟨⟨[], [⟨.count ["*"], "n"⟩]⟩, [⟨[], stateSizeBudgetChunk⟩, ⟨[], stateSizeBudgetChunk⟩],
      stateSizeBudgetChunk, stateSizeBudgetChunk⟩ false [⟨"n", [[48]]⟩] (by decide)

/-! ## The row_any aggregator: merge order and single capture -/

/-- C4 (counterexample): `row_any.mergeState` is not commutative.  Two
instances of the same aggregator, each built by updating a fresh state
with a concrete one-row block, finalize to different results depending on
the merge order — `mergeState` keeps the receiver's captured row whenever
it has one, so `merge(a,b)` keeps `a`'s row while `merge(b,a)` keeps
`b`'s. -/
theorem c4_merge_commutativity_counterexample :
    statsRowAnyProcessor.finalizeStats
        (statsRowAnyProcessor.mergeState
          (statsRowAnyProcessor.updateStatsForAllRows ⟨[], false, []⟩
            ⟨[0], [⟨"a", false, [[49]]⟩]⟩).1
          (statsRowAnyProcessor.updateStatsForAllRows ⟨[], false, []⟩
            ⟨[0], [⟨"b", false, [[50]]⟩]⟩).1)
      ≠ statsRowAnyProcessor.finalizeStats
        (statsRowAnyProcessor.mergeState
          (statsRowAnyProcessor.updateStatsForAllRows ⟨[], false, []⟩
            ⟨[0], [⟨"b", false, [[50]]⟩]⟩).1
          (statsRowAnyProcessor.updateStatsForAllRows ⟨[], false, []⟩
            ⟨[0], [⟨"a", false, [[49]]⟩]⟩).1) := by
  decide

/-- C4 (amended): for the `row_any` aggregator, merging shard states is
associative; it is commutative up to the finalized result only when at
most one of the two states has captured a row (states that have not
captured a row hold no fields, which is an invariant of the update
methods).  When both operands have captured rows, `mergeState` keeps the
receiver's row, so the finalized result depends on the fold order. -/
theorem c4_merge_assoc_comm_amended (a b c : statsRowAnyProcessor)
    (hA : a.captured = false → a.fields = [])
    (hB : b.captured = false → b.fields = []) :
    (statsRowAnyProcessor.mergeState (statsRowAnyProcessor.mergeState a b) c
      = statsRowAnyProcessor.mergeState a (statsRowAnyProcessor.mergeState b c)) ∧
    (¬(a.captured = true ∧ b.captured = true) →
      statsRowAnyProcessor.finalizeStats (statsRowAnyProcessor.mergeState a b)
        = statsRowAnyProcessor.finalizeStats (statsRowAnyProcessor.mergeState b a)) := by
  constructor
  · cases ha : a.captured <;> cases hb : b.captured <;>
      simp [statsRowAnyProcessor.mergeState, ha, hb]
  · intro hnot
    cases ha : a.captured <;> cases hb : b.captured
    · simp [statsRowAnyProcessor.mergeState, statsRowAnyProcessor.finalizeStats, ha, hb,
        hA ha, hB hb]
    · simp [statsRowAnyProcessor.mergeState, statsRowAnyProcessor.finalizeStats, ha, hb]
    · simp [statsRowAnyProcessor.mergeState, statsRowAnyProcessor.finalizeStats, ha, hb]
    · exact absurd ⟨ha, hb⟩ hnot

/-- Witness for C4 (amended) at concrete states: one captured instance and
one fresh instance merge associatively and commute. -/
theorem c4_merge_assoc_comm_amended_witness :
    (statsRowAnyProcessor.mergeState
        (statsRowAnyProcessor.mergeState ⟨[], true, [⟨"a", [49]⟩]⟩ ⟨[], false, []⟩)
        ⟨[], true, [⟨"c", [51]⟩]⟩
      = statsRowAnyProcessor.mergeState ⟨[], true, [⟨"a", [49]⟩]⟩
        (statsRowAnyProcessor.mergeState ⟨[], false, []⟩ ⟨[], true, [⟨"c", [51]⟩]⟩)) ∧
    (¬((⟨[], true, [⟨"a", [49]⟩]⟩ : statsRowAnyProcessor).captured = true ∧
        (⟨[], false, []⟩ : statsRowAnyProcessor).captured = true) →
      statsRowAnyProcessor.finalizeStats
          (statsRowAnyProcessor.mergeState ⟨[], true, [⟨"a", [49]⟩]⟩ ⟨[], false, []⟩)
        = statsRowAnyProcessor.finalizeStats
          (statsRowAnyProcessor.mergeState ⟨[], false, []⟩ ⟨[], true, [⟨"a", [49]⟩]⟩)) :=
  c4_merge_assoc_comm_amended ⟨[], true, [⟨"a", [49]⟩]⟩ ⟨[], false, []⟩
    ⟨[], true, [⟨"c", [51]⟩]⟩ (by simp) (by simp)

/-- C10: the `row_any` aggregator captures at most one row.  Once the
`captured` flag is set, every further `updateStatsForAllRows` or
`updateStatsForRow` call returns a zero state-size delta and leaves the
state (including the stored fields) unchanged; an `updateStatsForAllRows`
call on a zero-row block also returns zero and captures nothing. -/
theorem c10_row_any_captures_at_most_once (sap : statsRowAnyProcessor) (br : blockResult)
    (rowIdx : Nat) :
    (sap.captured = true →
      sap.updateStatsForAllRows br = (sap, 0) ∧ sap.updateStatsForRow br rowIdx = (sap, 0)) ∧
    (br.rowsLen = 0 → sap.updateStatsForAllRows br = (sap, 0)) := by
  constructor
  · intro hc
    constructor
    · simp [statsRowAnyProcessor.updateStatsForAllRows, hc]
    · simp [statsRowAnyProcessor.updateStatsForRow, hc]
  · intro h0
    simp [statsRowAnyProcessor.updateStatsForAllRows, h0]

/-- Witness for C10: a concrete captured state is left unchanged by both
update methods, and a fresh state ignores an empty block. -/
theorem c10_row_any_captures_at_most_once_witness :
    ((⟨[], true, [⟨"a", [49]⟩]⟩ : statsRowAnyProcessor).updateStatsForAllRows
        ⟨[0], [⟨"b", false, [[50]]⟩]⟩ = (⟨[], true, [⟨"a", [49]⟩]⟩, 0) ∧
      (⟨[], true, [⟨"a", [49]⟩]⟩ : statsRowAnyProcessor).updateStatsForRow
        ⟨[0], [⟨"b", false, [[50]]⟩]⟩ 0 = (⟨[], true, [⟨"a", [49]⟩]⟩, 0)) ∧
    ((⟨[], false, []⟩ : statsRowAnyProcessor).updateStatsForAllRows ⟨[], []⟩
        = (⟨[], false, []⟩, 0)) :=
  ⟨(c10_row_any_captures_at_most_once ⟨[], true, [⟨"a", [49]⟩]⟩
      ⟨[0], [⟨"b", false, [[50]]⟩]⟩ 0).1 rfl,
    (c10_row_any_captures_at_most_once ⟨[], false, []⟩ ⟨[], []⟩ 0).2 rfl⟩

/-! ## Bucket-size parsing and plan invariants of the clause grammar -/

/-- C7: in the by-field bucket grammar, the strings `year` and `month` are
accepted and recorded only as `bucketSizeStr` with the numeric
`bucketSize` left `0` (first two conjuncts), while every other accepted
bucket-size string sets `bucketSize` to the numeric value produced by
`tryParseBucketSize` (last conjunct, for an arbitrary string), whose value
on named linear units, floats, durations, byte sizes and `/N` IPv4 masks
is illustrated by the middle conjuncts. -/
theorem c7_bucket_size_year_month (s : String) :
    (parseByStatsFields ⟨["(", "f", ":", "year", ")"]⟩
        = some ([⟨"f", "year", 0, "", 0⟩], ⟨[]⟩)) ∧
    (parseByStatsFields ⟨["(", "f", ":", "month", ")"]⟩
        = some ([⟨"f", "month", 0, "", 0⟩], ⟨[]⟩)) ∧
    (tryParseBucketSize "second" = some nsecsPerSecond ∧
      tryParseBucketSize "/24" = some 256 ∧
      tryParseBucketSize "1.5KiB" = some 1536 ∧
      tryParseBucketSize "1.5s" = some 1500000000 ∧
      tryParseBucketSize "0.5" = some (1 / 2 : ℚ)) ∧
    (∀ v : ℚ, tryParseBucketSize s = some v →
      parseByStatsFields ⟨["(", "f", ":", s, ")"]⟩ = some ([⟨"f", s, v, "", 0⟩], ⟨[]⟩)) := by
  refine ⟨by decide, by decide, ⟨rfl, ?_, ?_, ?_, ?_⟩, ?_⟩
  · rw [show tryParseBucketSize "/24" = some ((2 : ℚ) ^ (32 - 24)) from rfl]
    norm_num
  · rw [show tryParseBucketSize "1.5KiB"
        = some ((((1 : ℕ) : ℚ) + ((5 : ℕ) : ℚ) / 10 ^ (1 : ℕ)) * 1024) from rfl]
    norm_num
  · rw [show tryParseBucketSize "1.5s"
        = some ((((1 : ℕ) : ℚ) + ((5 : ℕ) : ℚ) / 10 ^ (1 : ℕ)) * nsecsPerSecond) from rfl]
    rw [show nsecsPerSecond = 1000000000 from rfl]
    norm_num
  · rw [show tryParseBucketSize "0.5"
        = some (((0 : ℕ) : ℚ) + ((5 : ℕ) : ℚ) / 10 ^ (1 : ℕ)) from rfl]
    norm_num
  intro v hv
  have hslash : s ≠ "/" := by
    intro h
    rw [h] at hv
    rw [show tryParseBucketSize "/" = none from by decide] at hv
    exact Option.noConfusion hv
  have hyear : s ≠ "year" := by
    intro h
    rw [h] at hv
    rw [show tryParseBucketSize "year" = none from by decide] at hv
    exact Option.noConfusion hv
  have hmonth : s ≠ "month" := by
    intro h
    rw [h] at hv
    rw [show tryParseBucketSize "month" = none from by decide] at hv
    exact Option.noConfusion hv
  simp [parseByStatsFields, parseByStatsFieldsAux, parseByFieldBucket,
    lexer.isKeyword, lexer.token, lexer.nextToken, getCompoundPhrase, getCanonicalColumnName,
    delimiterTokens, hslash, hyear, hmonth, hv]

/-- Witness for C7: the general conjunct applied to the named linear unit
`second`, which buckets by `10^9` nanoseconds. -/
theorem c7_bucket_size_year_month_witness :
    parseByStatsFields ⟨["(", "f", ":", "second", ")"]⟩
      = some ([⟨"f", "second", nsecsPerSecond, "", 0⟩], ⟨[]⟩) :=
  (c7_bucket_size_year_month "second").2.2.2 nsecsPerSecond (by decide)

theorem parsePipeStatsFuncsAux_grows :
    ∀ (fuel : Nat) (lex : lexer) (acc funcs : List parsedPipeStatsFunc) (rest : lexer),
      parsePipeStatsFuncsAux fuel lex acc = some (funcs, rest) → acc.length < funcs.length := by
  intro fuel
  induction fuel with
  | zero => intro lex acc funcs rest h; simp [parsePipeStatsFuncsAux] at h
  | succ f ih =>
    intro lex acc funcs rest h
    simp only [parsePipeStatsFuncsAux] at h
    split at h
    · exact absurd h (by simp)
    · split at h
      · exact absurd h (by simp)
      · split at h
        · exact absurd h (by simp)
        · split at h
          · have hp : acc ++ [_] = funcs := (Prod.mk.injEq .. ▸ Option.some_inj.mp h).1
            rw [← hp]
            simp
          · split at h
            · have := ih _ _ _ _ h
              simp only [List.length_append, List.length_cons, List.length_nil] at this
              omega
            · exact absurd h (by simp)

/-- C8 (amended): every plan produced by a successful `parsePipeStats`
contains at least one aggregator; the parser performs no uniqueness check
on result names, so the `resultName`s of the aggregators may repeat. -/
theorem c8_parsed_plan_has_aggregator (lex : lexer) (ps : parsedPipeStats) (rest : lexer)
    (h : parsePipeStats lex = some (ps, rest)) : ps.funcs ≠ [] := by
  simp only [parsePipeStats] at h
  split at h
  · split at h
    · exact absurd h (by simp)
    · obtain ⟨⟨funcs, lex3⟩, haux, hmap⟩ := Option.map_eq_some'.mp h
      have hgrow := parsePipeStatsFuncsAux_grows _ _ _ _ _ haux
      have hps : ps.funcs = funcs := by
        have := congrArg (fun q => q.1.funcs) hmap
        simpa using this.symm
      intro hcontra
      have hfv : funcs = [] := by rw [← hps]; exact hcontra
      rw [hfv] at hgrow
      simp at hgrow
  · exact absurd h (by simp)

/-- Witness for C8 (amended): the concrete parse below succeeds, and its
plan has a non-empty aggregator list. -/
theorem c8_parsed_plan_has_aggregator_witness :
    (⟨[], [⟨⟨"count", ["*"]⟩, none, "x"⟩, ⟨⟨"count", ["*"]⟩, none, "x"⟩]⟩ :
        parsedPipeStats).funcs ≠ [] :=
  c8_parsed_plan_has_aggregator
    ⟨["stats", "count", "(", "*", ")", "as", "x", ",", "count", "(", "*", ")", "as", "x"]⟩
    _ ⟨[]⟩ (by decide)

/-- C8 (counterexample): `parsePipeStats` accepts a clause whose two
aggregators share the result name `x`, so the `resultName`s of a
successfully parsed plan are not pairwise distinct. -/
theorem c8_duplicate_result_names_counterexample :
    parsePipeStats
        ⟨["stats", "count", "(", "*", ")", "as", "x", ",", "count", "(", "*", ")", "as", "x"]⟩
      = some (⟨[], [⟨⟨"count", ["*"]⟩, none, "x"⟩, ⟨⟨"count", ["*"]⟩, none, "x"⟩]⟩, ⟨[]⟩) ∧
    (⟨[], [⟨⟨"count", ["*"]⟩, none, "x"⟩, ⟨⟨"count", ["*"]⟩, none, "x"⟩]⟩ :
        parsedPipeStats).funcs.map (fun f => f.resultName) = ["x", "x"] :=
  ⟨by decide, rfl⟩

end VLStats
